import Mathlib

/-!
Verification development for the restapir scripting runtime.

This file gives a shallow embedding of the parts of the repository that the
checked properties are about:

* `src/classes/transformation.js` — the Transformation evaluator (the class
  `Transformation` with its `transform` chain and the `_`-prefixed operation
  methods).  These definitions are translated from that source file.
* the `jsonpointer` npm library (version 4.0.x, a dependency of
  `transformation.js`), modelled by `jsonPointerGet` including the cases in
  which the library throws.
* the Script execution engine (the class `Script`), which is not present in
  the repository snapshot (only its tests in `src/test/models/User.yml` and its
  callers are).  Those definitions are modelled from the specification and are
  marked `Modelled from the spec:` in their doc comments.

JavaScript machine details are embedded as follows: numbers are `Int`
(the scripts under test only use integral values), strings are Lean `String`
(ASCII-faithful models are used for the lodash case functions, as noted at
each definition), `undefined` and `null` are distinct `Value` constructors,
and code that can throw returns `Except`.
-/

namespace Restapir

/-- A JSON-like JavaScript value.  `undef` models JavaScript `undefined`,
which is distinct from `null` (`vnull`).  Objects are association lists in
property-insertion order, matching JavaScript enumeration order for the
string-keyed objects the scripts use. -/
inductive Value where
  | vnull : Value
  | undef : Value
  | bool : Bool → Value
  | num : Int → Value
  | str : String → Value
  | arr : List Value → Value
  | obj : List (String × Value) → Value
deriving Repr

mutual

/-- Structural (deep) equality on values; this is the shallow embedding of
lodash `_.isEqual` on JSON-like data (reference identity is not modelled). -/
def beqVal : Value → Value → Bool
  | Value.vnull, Value.vnull => true
  | Value.undef, Value.undef => true
  | Value.bool a, Value.bool b => a == b
  | Value.num a, Value.num b => a == b
  | Value.str a, Value.str b => a == b
  | Value.arr a, Value.arr b => beqValList a b
  | Value.obj a, Value.obj b => beqValFields a b
  | _, _ => false

def beqValList : List Value → List Value → Bool
  | [], [] => true
  | a :: as, b :: bs => beqVal a b && beqValList as bs
  | _, _ => false

def beqValFields : List (String × Value) → List (String × Value) → Bool
  | [], [] => true
  | (k, a) :: as, (l, b) :: bs => k == l && beqVal a b && beqValFields as bs
  | _, _ => false

end

mutual

def beqVal_iff : (a b : Value) → (beqVal a b = true ↔ a = b)
  | Value.vnull, b => by cases b <;> simp [beqVal]
  | Value.undef, b => by cases b <;> simp [beqVal]
  | Value.bool x, b => by cases b <;> simp [beqVal]
  | Value.num x, b => by cases b <;> simp [beqVal]
  | Value.str x, b => by cases b <;> simp [beqVal]
  | Value.arr xs, b => by
      cases b <;> simp [beqVal]
      case arr ys => exact beqValList_iff xs ys
  | Value.obj xs, b => by
      cases b <;> simp [beqVal]
      case obj ys => exact beqValFields_iff xs ys

def beqValList_iff : (a b : List Value) → (beqValList a b = true ↔ a = b)
  | [], b => by cases b <;> simp [beqValList]
  | x :: xs, [] => by simp [beqValList]
  | x :: xs, y :: ys => by
      simp [beqValList, Bool.and_eq_true, beqVal_iff x y, beqValList_iff xs ys]

def beqValFields_iff : (a b : List (String × Value)) →
    (beqValFields a b = true ↔ a = b)
  | [], b => by cases b <;> simp [beqValFields]
  | x :: xs, [] => by simp [beqValFields]
  | (k, x) :: xs, (l, y) :: ys => by
      simp [beqValFields, Bool.and_eq_true, beqVal_iff x y, beqValFields_iff xs ys]

end

instance : DecidableEq Value := fun a b => decidable_of_iff _ (beqVal_iff a b)

/-- `value === null || typeof value === 'undefined'` — the absence test used
throughout `transformation.js`. -/
def isNullish : Value → Bool
  | Value.vnull => true
  | Value.undef => true
  | _ => false

/-- `typeof v === 'string'`. -/
def isStr : Value → Bool
  | Value.str _ => true
  | _ => false

/-- `v instanceof Array`. -/
def isArr : Value → Bool
  | Value.arr _ => true
  | _ => false

/-- JavaScript `typeof` (as a string), for the error message produced by
`_substring`. -/
def jsTypeof : Value → String
  | Value.vnull => "object"
  | Value.undef => "undefined"
  | Value.bool _ => "boolean"
  | Value.num _ => "number"
  | Value.str _ => "string"
  | Value.arr _ => "object"
  | Value.obj _ => "object"

/-- `typeof v === 'object'` — true for `null`, arrays and objects. -/
def typeofIsObject : Value → Bool
  | Value.vnull => true
  | Value.arr _ => true
  | Value.obj _ => true
  | _ => false

/-- JavaScript truthiness: `false`, `0`, `''`, `null` and `undefined` are
falsy, every other value is truthy. -/
def jsTruthy : Value → Bool
  | Value.vnull => false
  | Value.undef => false
  | Value.bool b => b
  | Value.num n => n ≠ 0
  | Value.str s => s ≠ ""
  | _ => true

mutual

/-- JavaScript `String(v)` coercion (`Array.prototype.toString` joins the
elements with commas, rendering `null`/`undefined` elements as empty). -/
def jsToString : Value → String
  | Value.vnull => "null"
  | Value.undef => "undefined"
  | Value.bool b => if b then "true" else "false"
  | Value.num n => toString n
  | Value.str s => s
  | Value.arr xs => jsJoinList xs
  | Value.obj _ => "[object Object]"

/-- Elements of an array joined by `,`, with `null`/`undefined` elements
rendered as the empty string (JavaScript `Array.prototype.join`). -/
def jsJoinList : List Value → String
  | [] => ""
  | [x] => if isNullish x then "" else jsToString x
  | x :: y :: rest =>
      (if isNullish x then "" else jsToString x) ++ "," ++ jsJoinList (y :: rest)

end

/-- Decimal digits to a natural number. -/
def digitsToNat (cs : List Char) : Nat :=
  cs.foldl (fun acc c => acc * 10 + (c.toNat - 48)) 0

/-- Canonical array index: `arr[s]` hits an element only when `s` is the
canonical decimal form of an index (so `arr['01']` is `undefined`). -/
def toArrayIndex (s : String) : Option Nat :=
  match s.data with
  | [] => none
  | c :: rest =>
      if (c :: rest).all Char.isDigit ∧ (rest = [] ∨ c ≠ '0') then
        some (digitsToNat (c :: rest))
      else none

/-- Split on `/` (the structural shadow of `String.splitOn "/"` for the
single-character separator used by JSON pointers). -/
def splitSlashChars : List Char → List (List Char)
  | [] => [[]]
  | c :: rest =>
      if c = '/' then [] :: splitSlashChars rest
      else
        match splitSlashChars rest with
        | [] => [[c]]
        | g :: gs => (c :: g) :: gs

def splitSlash (s : String) : List String :=
  (splitSlashChars s.data).map String.mk

/-- `untilde` from the `jsonpointer` library: replaces `~1` by `/` and `~0`
by `~`, scanning left to right. -/
def untilde (s : String) : String :=
  go s.data
where
  go : List Char → String
    | [] => ""
    | '~' :: '0' :: rest => "~" ++ go rest
    | '~' :: '1' :: rest => "/" ++ go rest
    | c :: rest => String.singleton c ++ go rest

/-- JavaScript property read `v[key]`, as exercised by `jsonpointer`'s get
loop.  Reading a property of `null` or `undefined` throws a `TypeError`;
a missing object key yields `undefined`; arrays expose their elements at
canonical indices and a `length` property. -/
def propAccess (v : Value) (key : String) : Except String Value :=
  match v with
  | Value.vnull => Except.error ("TypeError: cannot read property of null")
  | Value.undef => Except.error ("TypeError: cannot read property of undefined")
  | Value.obj fields =>
      match fields.lookup key with
      | some w => Except.ok w
      | none => Except.ok Value.undef
  | Value.arr xs =>
      if key = "length" then Except.ok (Value.num xs.length)
      else
        match toArrayIndex key with
        | some i =>
            match xs.get? i with
            | some w => Except.ok w
            | none => Except.ok Value.undef
        | none => Except.ok Value.undef
  | _ => Except.ok Value.undef

/-- The get loop of `jsonpointer@4.0.x`: walk the (already split) tokens;
after each read, if this was the last token return the value, otherwise
bail out with `undefined` when the value is not of `object` type (note that
`typeof null === 'object'`, so a `null` intermediate is *not* caught here
and the next property read throws — exactly the behaviour the comment in
`Transformation._get` describes). -/
def jsonPointerGetLoop : Value → List String → Except String Value
  | v, [] => Except.ok v
  | v, [t] => propAccess v (untilde t)
  | v, t :: t' :: rest => do
      let w ← propAccess v (untilde t)
      if typeofIsObject w then jsonPointerGetLoop w (t' :: rest)
      else Except.ok Value.undef

/-- `JsonPointer.get(obj, pointer)` from `jsonpointer@4.0.x`:
throws `Invalid input object.` when `typeof obj !== 'object'`, throws
`Invalid JSON pointer.` when the pointer does not start with `/` (and is not
empty), returns the whole value for the empty pointer, and otherwise runs the
token walk. -/
def jsonPointerGet (v : Value) (pointer : String) : Except String Value :=
  if typeofIsObject v = false then Except.error ("Invalid input object.")
  else
    match splitSlash pointer with
    | "" :: [] => Except.ok v
    | "" :: rest => jsonPointerGetLoop v rest
    | _ => Except.error ("Invalid JSON pointer.")

/-! ### String helpers used by the Transformation operations

The case functions in `transformation.js` delegate to lodash.  The models
below are ASCII-faithful: lodash word splitting, case conversion and `deburr`
are reproduced for ASCII letters/digits and the Latin-1 Supplement block
(ordinal words such as `1st` and Latin Extended-A deburring are outside the
model; no checked property depends on them). -/

/-- A character of a lodash "word": ASCII letter or digit. -/
def isWordChar (c : Char) : Bool := c.isAlpha || c.isDigit

/-- Maximal runs of word characters (lodash `words` before camel-hump
splitting). -/
def alnumRuns : List Char → List (List Char)
  | [] => []
  | c :: rest =>
      let r := alnumRuns rest
      if isWordChar c then
        if (rest.head?.map isWordChar).getD false then
          match r with
          | run :: rs => (c :: run) :: rs
          | [] => [[c]]
        else [c] :: r
      else r

/-- A camel-hump boundary between two adjacent word characters (lower→Upper,
letter↔digit, and Upper Upper lower splits before the Upper that starts a
capitalised word) — the ASCII content of lodash `unicodeWords`. -/
def camelBoundary (prev cur : Char) (next? : Option Char) : Bool :=
  (prev.isLower && cur.isUpper)
  || (prev.isDigit && !cur.isDigit)
  || (!prev.isDigit && cur.isDigit)
  || (prev.isUpper && cur.isUpper && (next?.map Char.isLower).getD false)

def camelSplitGo (acc : List Char) (prev : Char) : List Char → List (List Char)
  | [] => [acc]
  | c :: rest =>
      if camelBoundary prev c rest.head? then acc :: camelSplitGo [c] c rest
      else camelSplitGo (acc ++ [c]) c rest

/-- Split one alphanumeric run at camel-hump boundaries. -/
def camelSplitRun : List Char → List (List Char)
  | [] => []
  | c :: rest => camelSplitGo [c] c rest

/-- Latin-1 Supplement portion of lodash's `deburrLetter` map; combining
diacritical marks are removed. -/
def deburrChar (c : Char) : String :=
  let n := c.toNat
  if n ≥ 0xC0 ∧ n ≤ 0xC5 then "A"
  else if n = 0xC6 then "Ae"
  else if n = 0xC7 then "C"
  else if n ≥ 0xC8 ∧ n ≤ 0xCB then "E"
  else if n ≥ 0xCC ∧ n ≤ 0xCF then "I"
  else if n = 0xD0 then "D"
  else if n = 0xD1 then "N"
  else if (n ≥ 0xD2 ∧ n ≤ 0xD6) ∨ n = 0xD8 then "O"
  else if n ≥ 0xD9 ∧ n ≤ 0xDC then "U"
  else if n = 0xDD then "Y"
  else if n = 0xDE then "Th"
  else if n = 0xDF then "ss"
  else if n ≥ 0xE0 ∧ n ≤ 0xE5 then "a"
  else if n = 0xE6 then "ae"
  else if n = 0xE7 then "c"
  else if n ≥ 0xE8 ∧ n ≤ 0xEB then "e"
  else if n ≥ 0xEC ∧ n ≤ 0xEF then "i"
  else if n = 0xF0 then "d"
  else if n = 0xF1 then "n"
  else if (n ≥ 0xF2 ∧ n ≤ 0xF6) ∨ n = 0xF8 then "o"
  else if n ≥ 0xF9 ∧ n ≤ 0xFC then "u"
  else if n = 0xFD ∨ n = 0xFF then "y"
  else if n = 0xFE then "th"
  else if n ≥ 0x300 ∧ n ≤ 0x36F then ""
  else String.singleton c

def deburrStr (s : String) : String := String.join (s.data.map deburrChar)

/-- lodash strips apostrophes (`'` and `’`) before word splitting. -/
def stripApos (s : String) : String :=
  String.mk (s.data.filter (fun c => !(c = '\'' || c.toNat = 0x2019)))

/-- lodash `words(string)` (ASCII model; see section comment). -/
def lodashWords (s : String) : List String :=
  ((alnumRuns (stripApos (deburrStr s)).data).flatMap camelSplitRun).map String.mk

def upperFirst (s : String) : String :=
  match s.data with
  | [] => ""
  | c :: rest => String.mk (c.toUpper :: rest)

def lodashLowerCase (s : String) : String :=
  String.intercalate (" ") ((lodashWords s).map String.toLower)

def lodashUpperCase (s : String) : String :=
  String.intercalate (" ") ((lodashWords s).map String.toUpper)

def lodashCamelCase (s : String) : String :=
  match (lodashWords s).map String.toLower with
  | [] => ""
  | w :: ws => w ++ String.join (ws.map upperFirst)

def lodashKebabCase (s : String) : String :=
  String.intercalate ("-") ((lodashWords s).map String.toLower)

def lodashSnakeCase (s : String) : String :=
  String.intercalate ("_") ((lodashWords s).map String.toLower)

def lodashCapitalize (s : String) : String := upperFirst s.toLower

/-- `Transformation._nameCase`'s body (pure JS in the source):
`value.toLowerCase().split(/[\s]/).map(w => w.substring(0,1).toUpperCase()
+ w.substring(1)).join(' ')`. -/
def nameCaseJs (s : String) : String :=
  String.intercalate (" ") ((s.toLower.split (fun c => c.isWhitespace)).map upperFirst)

/-- JavaScript `String.prototype.substring(start, start + length)` with both
bounds clamped to `[0, s.length]` and swapped when reversed; `length`
missing means `Infinity`. -/
def jsSubstring (s : String) (start : Int) (len? : Option Int) : String :=
  let n : Int := s.length
  let clamp : Int → Int := fun x => max 0 (min x n)
  let a := clamp start
  let b := match len? with
    | none => n
    | some l => clamp (start + l)
  let lo := min a b
  let hi := max a b
  String.mk ((s.data.drop lo.toNat).take (hi - lo).toNat)

/-- JavaScript `Array.prototype.slice` index resolution (negative indices
count from the end). -/
def jsSliceIndex (len : Int) (x : Int) : Int :=
  if x < 0 then max 0 (len + x) else min x len

def jsSlice (xs : List Value) (fromv : Int) (tov : Option Int) : List Value :=
  let n : Int := xs.length
  let f := jsSliceIndex n fromv
  let t := match tov with
    | none => n
    | some v => jsSliceIndex n v
  if f < t then (xs.drop f.toNat).take (t - f).toNat else []

/-- JavaScript `String.prototype.split` with a string separator (an empty
separator splits into single characters). -/
def jsSplit (s sep : String) : List String :=
  if sep = "" then s.data.map String.singleton else s.splitOn sep

/-- Replace the first occurrence only (JavaScript `String.prototype.replace`
with a string search). -/
def replaceFirst (s pat repl : String) : String :=
  if pat = "" then repl ++ s
  else
    match s.splitOn pat with
    | [] => s
    | [p] => p
    | p :: ps => p ++ repl ++ String.intercalate pat ps

/-- Recognise a `/body/flags` regex literal (the `^\/(.+)\/([img]*)$` match
in `Transformation._replace`): only the last `/` can delimit valid flags. -/
def splitRegexLit (se : String) : Option (String × String) :=
  match se.data with
  | '/' :: rest =>
      match ((List.range rest.length).filter
          (fun i => rest.get? i = some '/')).getLast? with
      | none => none
      | some i =>
          let body := rest.take i
          let flags := rest.drop (i + 1)
          if body.length > 0 ∧ flags.all (fun c => c = 'i' ∨ c = 'm' ∨ c = 'g') then
            some (String.mk body, String.mk flags)
          else none
  | _ => none

/-- `value.replace(search, replace)`: a `/body/flags` search is compiled to a
RegExp; the body is modelled literally (the scripts' patterns are literal;
regex metacharacters and the `i` flag are outside the model), the `g` flag
replaces all occurrences. -/
def jsReplace (v se re : String) : String :=
  match splitRegexLit se with
  | some (body, flags) =>
      if flags.data.contains 'g' then v.replace body re
      else replaceFirst v body re
  | none => replaceFirst v se re

/-! ### The Transformation evaluator (`src/classes/transformation.js`)

A template is the JS object passed to `new Transformation(template)`: its
keys name operations (dispatched to the `_`-prefixed methods), its values
are the operation payloads, and the operations chain in key order.  The
embedding represents a template as the list of its (key, payload) entries;
an entry whose key matches no `_key` method of the class is represented by
`OpEntry.unknown` (the operations bound to external engines — crypto
hashing, cheerio HTML extraction, XML and JSON parsing, wall-clock `now`,
schema `assert` and `case` — are outside the embedding). -/

/-- Errors thrown while evaluating a transformation. -/
inductive TErr where
  | unknownFunction : String → TErr
  | typeError : String → TErr
  | jsTypeError : String → TErr
  | fuelErr : TErr
deriving DecidableEq, Repr

mutual

/-- A property payload inside `object` / `map` / `array`: the source wraps a
string payload as `{get: payload}` and uses any other payload as a nested
template. -/
inductive PropT where
  | path : String → PropT
  | tmpl : Template → PropT

/-- A transformation template: its operation entries in key order. -/
inductive Template where
  | mk : List OpEntry → Template

inductive OpEntry where
  | get : Value → OpEntry
  | static : Value → OpEntry
  | object : List (String × PropT) → OpEntry
  | map : PropT → OpEntry
  | substring : Value → OpEntry
  | lengthOp : OpEntry
  | array : List PropT → OpEntry
  | union : List PropT → OpEntry
  | join : Value → OpEntry
  | split : Value → OpEntry
  | filter : OpEntry
  | slice : Value → OpEntry
  | count : OpEntry
  | replace : Value → OpEntry
  | lowerCase : OpEntry
  | upperCase : OpEntry
  | camelCase : OpEntry
  | kebabCase : OpEntry
  | snakeCase : OpEntry
  | nameCase : OpEntry
  | capitalize : OpEntry
  | deburr : OpEntry
  | unknown : String → Value → OpEntry

end

/-- Value-level shadow of `_.cloneDeep` — on immutable trees a deep clone is
the identity; the aliasing discipline it buys in the JS heap is modelled
separately in the heap section below. -/
def cloneDeepV (v : Value) : Value := v

/-- Property read `options.field` as performed by the operation bodies
(throws a native `TypeError` on `null`/`undefined`, yields `undefined` for a
missing key or a primitive receiver). -/
def getFieldExc (o : Value) (k : String) : Except TErr Value :=
  match o with
  | Value.vnull => Except.error (TErr.jsTypeError ("Cannot read property of null"))
  | Value.undef => Except.error (TErr.jsTypeError ("Cannot read property of undefined"))
  | Value.obj fs => Except.ok ((fs.lookup k).getD Value.undef)
  | _ => Except.ok Value.undef

/-- Field read after `_.defaults` coercion (`_.defaults(options, …)` turns a
non-object into an empty object, so no read can throw). -/
def getFieldSafe (o : Value) (k : String) : Option Value :=
  match o with
  | Value.obj fs => fs.lookup k
  | _ => none

/-- `_.union` of the evaluated sub-results: concatenate the array results
(non-arrays are ignored by lodash's flatten) and drop duplicates keeping
first-seen order. -/
def dedupVals : List Value → List Value
  | [] => []
  | x :: rest => x :: dedupVals (rest.filter (fun y => !beqVal y x))
termination_by l => l.length
decreasing_by
  simp only [List.length_cons]
  exact Nat.lt_succ_of_le (List.length_filter_le _ _)

def jsUnion (rs : List Value) : List Value :=
  dedupVals (rs.flatMap (fun r =>
    match r with
    | Value.arr xs => xs
    | _ => []))

mutual

/-- `Transformation.prototype.transform`: bail out to `null` on a nullish
input, deep-clone, then fold the operation entries in key order.  The
`fuel` argument models the JavaScript call stack: recursion into nested
templates consumes it (`TErr.fuelErr` is the embedding's stack-overflow
artifact, never produced on any run that returns `ok`/a source error). -/
def transform : Nat → Template → Value → Except TErr Value
  | fuel, Template.mk ops, value =>
      if isNullish value then Except.ok Value.vnull
      else
        match fuel with
        | 0 => Except.error TErr.fuelErr
        | f + 1 => chain f ops (cloneDeepV value)
termination_by structural fuel _ _ => fuel

/-- The `for` loop inside `transform`: dispatch each key, and bail out with
`null` as soon as an operation's output is nullish. -/
def chain : Nat → List OpEntry → Value → Except TErr Value
  | _, [], output => Except.ok output
  | fuel, op :: rest, output =>
      match fuel with
      | 0 => Except.error TErr.fuelErr
      | f + 1 =>
          match applyOp f output op with
          | Except.error e => Except.error e
          | Except.ok out =>
              if isNullish out then Except.ok Value.vnull
              else chain f rest out
termination_by structural fuel _ _ => fuel

/-- Dispatch of one operation entry to its `_`-prefixed method.  Only the
operations with nested templates (`object`, `map`, `array`, `union`)
recurse and consume fuel; every other operation ignores it. -/
def applyOp : Nat → Value → OpEntry → Except TErr Value
  | _, value, OpEntry.get options =>
      (match options with
      | Value.str s =>
          Except.ok (match jsonPointerGet value s with
            | Except.ok w => w
            | Except.error _ => Value.vnull)
      | _ => Except.error (TErr.typeError ("Value of \"get\" function must be a string")))
  | _, _, OpEntry.static options => Except.ok options
  | fuel, value, OpEntry.object props =>
      (match fuel with
      | 0 => Except.error TErr.fuelErr
      | f + 1 =>
          match evalProps f props value with
          | Except.error e => Except.error e
          | Except.ok fields => Except.ok (Value.obj fields))
  | fuel, value, OpEntry.map arg =>
      (match value with
      | Value.arr items =>
          (match fuel with
          | 0 => Except.error TErr.fuelErr
          | f + 1 =>
              match mapItems f arg items with
              | Except.error e => Except.error e
              | Except.ok ws => Except.ok (Value.arr ws))
      | _ => Except.ok Value.vnull)
  | fuel, value, OpEntry.array items =>
      (match fuel with
      | 0 => Except.error TErr.fuelErr
      | f + 1 =>
          match arrayItems f items value with
          | Except.error e => Except.error e
          | Except.ok ws => Except.ok (Value.arr ws))
  | fuel, value, OpEntry.union items =>
      (match fuel with
      | 0 => Except.error TErr.fuelErr
      | f + 1 =>
          match arrayItems f items value with
          | Except.error e => Except.error e
          | Except.ok ws => Except.ok (Value.arr (jsUnion ws)))
  | _, value, OpEntry.substring options =>
      (match value with
      | Value.str s => do
          let startF ← getFieldExc options ("start")
          let lenF ← getFieldExc options ("length")
          let start : Int := match startF with
            | Value.num n => n
            | _ => 0
          let len? : Option Int := match lenF with
            | Value.num n => some n
            | _ => none
          Except.ok (Value.str (jsSubstring s start len?))
      | v => Except.error (TErr.typeError ("Cannot execute substring on " ++ jsTypeof v)))
  | _, value, OpEntry.lengthOp =>
      (match value with
      | Value.str s => Except.ok (Value.num s.length)
      | Value.arr xs => Except.ok (Value.num xs.length)
      | _ => Except.error (TErr.typeError ("Can only get length of arrays and strings")))
  | _, value, OpEntry.join options =>
      (match value with
      | Value.arr xs => do
          let sepF ← getFieldExc options ("separator")
          let sep := if jsTruthy sepF then jsToString sepF else ""
          Except.ok (Value.str (String.intercalate sep
            (xs.map (fun x => if isNullish x then "" else jsToString x))))
      | _ => Except.error (TErr.typeError ("Value for join transformation must be an array")))
  | _, value, OpEntry.split options => do
      let sepF ← getFieldExc options ("separator")
      if jsTruthy sepF = false then
        Except.error (TErr.typeError ("Missing separator for split transformation"))
      else
        match value with
        | Value.str s => Except.ok (Value.arr ((jsSplit s (jsToString sepF)).map Value.str))
        | _ => Except.ok (Value.arr [])
  | _, value, OpEntry.filter =>
      (match value with
      | Value.arr xs => Except.ok (Value.arr (xs.filter jsTruthy))
      | _ => Except.error (TErr.typeError ("Value for filter transformation must be an array")))
  | _, value, OpEntry.slice options =>
      (match value with
      | Value.arr xs =>
          let fromv : Int := match getFieldSafe options ("from") with
            | some (Value.num n) => n
            | _ => 0
          let tov : Option Int := match getFieldSafe options ("to") with
            | some (Value.num n) => some n
            | _ => none
          Except.ok (Value.arr (jsSlice xs fromv tov))
      | _ => Except.error (TErr.typeError ("Value for slice transformation must be an array")))
  | _, value, OpEntry.count =>
      (match value with
      | Value.str s => Except.ok (Value.num s.length)
      | Value.arr xs => Except.ok (Value.num xs.length)
      | _ => Except.ok (Value.num 0))
  | _, value, OpEntry.replace options =>
      if typeofIsObject options = false then
        Except.error (TErr.typeError
          ("Value of \"replace\" functions must be an object with search and replace properties"))
      else do
        let searchF ← getFieldExc options ("search")
        let replF ← getFieldExc options ("replace")
        match searchF, replF with
        | Value.str se, Value.str re =>
            (match value with
            | Value.str v => Except.ok (Value.str (jsReplace v se re))
            | _ => Except.ok Value.vnull)
        | _, _ => Except.error (TErr.typeError
            ("Value of \"replace\" functions must be an object with search and replace properties"))
  | _, value, OpEntry.lowerCase =>
      (match value with
      | Value.str s => Except.ok (Value.str (lodashLowerCase s))
      | _ => Except.ok Value.vnull)
  | _, value, OpEntry.upperCase =>
      (match value with
      | Value.str s => Except.ok (Value.str (lodashUpperCase s))
      | _ => Except.ok Value.vnull)
  | _, value, OpEntry.camelCase =>
      (match value with
      | Value.str s => Except.ok (Value.str (lodashCamelCase s))
      | _ => Except.ok Value.vnull)
  | _, value, OpEntry.kebabCase =>
      (match value with
      | Value.str s => Except.ok (Value.str (lodashKebabCase s))
      | _ => Except.ok Value.vnull)
  | _, value, OpEntry.snakeCase =>
      (match value with
      | Value.str s => Except.ok (Value.str (lodashSnakeCase s))
      | _ => Except.ok Value.vnull)
  | _, value, OpEntry.nameCase =>
      (match value with
      | Value.str s => Except.ok (Value.str (nameCaseJs s))
      | _ => Except.ok Value.vnull)
  | _, value, OpEntry.capitalize =>
      (match value with
      | Value.str s => Except.ok (Value.str (lodashCapitalize s))
      | _ => Except.ok Value.vnull)
  | _, value, OpEntry.deburr =>
      (match value with
      | Value.str s => Except.ok (Value.str (deburrStr s))
      | _ => Except.ok Value.vnull)
  | _, _, OpEntry.unknown key _ => Except.error (TErr.unknownFunction key)
termination_by structural fuel _ _ => fuel

/-- Evaluate one property payload: a string payload behaves as the
single-entry template `{get: payload}` (inlined — see `evalProp_path`
below), any other payload is a nested `transform`. -/
def evalProp : Nat → PropT → Value → Except TErr Value
  | _, PropT.path s, value =>
      if isNullish value then Except.ok Value.vnull
      else
        Except.ok (match jsonPointerGet value s with
          | Except.ok w => if isNullish w then Value.vnull else w
          | Except.error _ => Value.vnull)
  | fuel, PropT.tmpl t, value =>
      match fuel with
      | 0 => Except.error TErr.fuelErr
      | f + 1 => transform f t value
termination_by structural fuel _ _ => fuel

/-- `_object`'s `Object.keys(options).forEach`: build the output fields in
template key order. -/
def evalProps : Nat → List (String × PropT) → Value →
    Except TErr (List (String × Value))
  | _, [], _ => Except.ok []
  | fuel, (k, p) :: rest, value =>
      match fuel with
      | 0 => Except.error TErr.fuelErr
      | f + 1 =>
          match evalProp f p value with
          | Except.error e => Except.error e
          | Except.ok w =>
              match evalProps f rest value with
              | Except.error e => Except.error e
              | Except.ok ws => Except.ok ((k, w) :: ws)
termination_by structural fuel _ _ => fuel

/-- `_map`'s `value.forEach`: the same payload applied to every element. -/
def mapItems : Nat → PropT → List Value → Except TErr (List Value)
  | _, _, [] => Except.ok []
  | fuel, arg, x :: rest =>
      match fuel with
      | 0 => Except.error TErr.fuelErr
      | f + 1 =>
          match evalProp f arg x with
          | Except.error e => Except.error e
          | Except.ok w =>
              match mapItems f arg rest with
              | Except.error e => Except.error e
              | Except.ok ws => Except.ok (w :: ws)
termination_by structural fuel _ _ => fuel

/-- `_array`'s `options.map`: each payload evaluated against the same
value. -/
def arrayItems : Nat → List PropT → Value → Except TErr (List Value)
  | _, [], _ => Except.ok []
  | fuel, p :: rest, value =>
      match fuel with
      | 0 => Except.error TErr.fuelErr
      | f + 1 =>
          match evalProp f p value with
          | Except.error e => Except.error e
          | Except.ok w =>
              match arrayItems f rest value with
              | Except.error e => Except.error e
              | Except.ok ws => Except.ok (w :: ws)
termination_by structural fuel _ _ => fuel

end

/-! ### Association-list helpers for object documents -/

def lookupField (v : Value) (k : String) : Option Value :=
  match v with
  | Value.obj fs => fs.lookup k
  | _ => none

/-- JavaScript property assignment on an object: overwrite in place, append
a new key at the end (insertion order). -/
def updateAssoc (fs : List (String × Value)) (k : String) (v : Value) :
    List (String × Value) :=
  match fs with
  | [] => [(k, v)]
  | (k', v') :: rest =>
      if k' = k then (k, v) :: rest else (k', v') :: updateAssoc rest k v

/-- Read a key treating both a missing key and an `undefined` value as
`null`. -/
def normNull (o : Option Value) : Value :=
  match o with
  | none => Value.vnull
  | some Value.undef => Value.vnull
  | some v => v

/-- Modelled from the spec: the `changed` operation of the Script engine's
transformation dialect (the implementation is not under `src/`; only its
tests in `src/test/models/User.yml` are).  Shallow structural diff over the
union of the keys: a key whose values differ (deep equality, a missing key
reading as `null`) is reported with the value taken from `right` (`null`
when the key disappeared); unchanged keys are omitted.  The null/missing
identification matches the in-repo test, where `f: null → absent` and
`absent → g: null` are both omitted. -/
def changedOp (left right : List (String × Value)) : List (String × Value) :=
  ((left.map Prod.fst ++ right.map Prod.fst).dedup).filterMap (fun k =>
    let lv := normNull (left.lookup k)
    let rv := normNull (right.lookup k)
    if lv = rv then none else some (k, rv))

/-- Modelled from the spec: the `change` operation (structural inverse of
`changed`, not under `src/`): apply a diff onto `target` — a `null` change
deletes the key, any other change overwrites it (same-key overwrite, no
deep merge), matching the in-repo test where `b: null` removes `b`. -/
def changeOp (target changes : List (String × Value)) : List (String × Value) :=
  changes.foldl (fun acc kv =>
    if kv.2 = Value.vnull then acc.filter (fun p => p.1 ≠ kv.1)
    else updateAssoc acc kv.1 kv.2) target

/-! ### The Script execution engine

The class `Script` is not present under `src/` (only its tests, its factory
and its callers are), so the engine below is modelled from the
specification, §3 and §4.2, with the in-repo tests of
`src/test/models/User.yml` fixing the ambiguous points.  Suspension
(`delay`, promise scheduling) has no observable effect on the final
document and is not modelled; the injected query capability is a pure
function argument `qf`. -/

/-- Structural shadow of `String.startsWith "/"`. -/
def startsWithSlash (s : String) : Bool :=
  match s.data with
  | '/' :: _ => true
  | _ => false

/-- Document paths used by the engine (`resultProperty`, `increment`):
a JSON pointer split into unescaped tokens; the empty pointer addresses the
whole document. -/
def parsePointer (s : String) : Option (List String) :=
  match splitSlash s with
  | "" :: [] => some []
  | "" :: rest => some (rest.map untilde)
  | _ => none

/-- Total structural lookup of a token path inside a document. -/
def ptrLookup (v : Value) : List String → Option Value
  | [] => some v
  | t :: rest =>
      match v with
      | Value.obj fs =>
          match fs.lookup t with
          | some w => ptrLookup w rest
          | none => none
      | Value.arr xs =>
          match toArrayIndex t with
          | some i =>
              match xs.get? i with
              | some w => ptrLookup w rest
              | none => none
          | none => none
      | _ => none

/-- Modelled from the spec: write a value at a token path, creating missing
intermediate objects (a non-object intermediate is replaced by a fresh
object, as the engine's documents at these paths are objects). -/
def ptrSet (v : Value) : List String → Value → Value
  | [], r => r
  | t :: rest, r =>
      match v with
      | Value.obj fs =>
          let child := match fs.lookup t with
            | some w => w
            | none => Value.obj []
          Value.obj (updateAssoc fs t (ptrSet child rest r))
      | _ => Value.obj [(t, ptrSet (Value.obj []) rest r)]

/-- Modelled from the spec: placement of a query step's result — no
`resultProperty` writes under `document.result`, the empty string replaces
the whole document, any other path writes at that path. -/
def applyQueryResult (doc result : Value) (resultProperty : Option String) : Value :=
  match resultProperty with
  | none => ptrSet doc ["result"] result
  | some p =>
      match parsePointer p with
      | some toks => ptrSet doc toks result
      | none => doc

/-- Modelled from the spec: `increment` — read the numeric value at the
path (absent or non-numeric reads as `-1`, so the first increment yields
`0`), add 1, write it back. -/
def incrementAt (doc : Value) (path : String) : Value :=
  match parsePointer path with
  | none => doc
  | some toks =>
      let cur : Int := match ptrLookup doc toks with
        | some (Value.num n) => n
        | _ => -1
      ptrSet doc toks (Value.num (cur + 1))

/-- JavaScript strict equality `===` on the operand values the scripts
compare (scalars by value; object/array operands compare by reference,
which two separately-evaluated operands never share — modelled as false). -/
def jsStrictEq : Value → Value → Bool
  | Value.vnull, Value.vnull => true
  | Value.undef, Value.undef => true
  | Value.bool a, Value.bool b => a == b
  | Value.num a, Value.num b => a == b
  | Value.str a, Value.str b => a == b
  | _, _ => false

/-- JavaScript `Number(string)` restricted to the integral values the
scripts use (`none` is NaN). -/
def strToNumber (s : String) : Option Int :=
  let t := s.trim
  if t = "" then some 0
  else
    match t.data with
    | '-' :: rest =>
        if rest ≠ [] ∧ rest.all Char.isDigit then some (-(String.mk rest).toNat!)
        else none
    | cs => if cs.all Char.isDigit then some (String.mk cs).toNat! else none

/-- JavaScript `ToNumber` (`none` is NaN; object coercion not modelled). -/
def jsToNumber : Value → Option Int
  | Value.vnull => some 0
  | Value.undef => none
  | Value.bool b => some (if b then 1 else 0)
  | Value.num n => some n
  | Value.str s => strToNumber s
  | _ => none

/-- JavaScript loose equality `==` on operand values (null/undefined equate
to each other only; strings compare as strings; otherwise numeric
coercion). -/
def jsLooseEq (l r : Value) : Bool :=
  if isNullish l && isNullish r then true
  else if isNullish l || isNullish r then false
  else
    match l, r with
    | Value.str a, Value.str b => a == b
    | Value.arr _, _ => false
    | Value.obj _, _ => false
    | _, Value.arr _ => false
    | _, Value.obj _ => false
    | _, _ =>
        match jsToNumber l, jsToNumber r with
        | some a, some b => a == b
        | _, _ => false

/-- JavaScript `<`: string–string comparison is lexicographic, otherwise
numeric (NaN makes the comparison false). -/
def jsLt (l r : Value) : Bool :=
  match l, r with
  | Value.str a, Value.str b => decide (a < b)
  | _, _ =>
      match jsToNumber l, jsToNumber r with
      | some a, some b => decide (a < b)
      | _, _ => false

def jsLe (l r : Value) : Bool :=
  match l, r with
  | Value.str a, Value.str b => decide (a ≤ b)
  | _, _ =>
      match jsToNumber l, jsToNumber r with
      | some a, some b => decide (a ≤ b)
      | _, _ => false

/-- The `in` operator of the jump condition: true when the left operand is
an item of the right operand, which must be an array. -/
def jsIn (l r : Value) : Bool :=
  match r with
  | Value.arr xs => xs.any (fun x => beqVal x l)
  | _ => false

/-- Modelled from the spec: the jump condition's operator dispatch —
`==`, `===`, `!=`, `!==`, `<`, `>`, `<=`, `>=`, `in` are supported and an
unrecognized operator evaluates to false. -/
def compareJs (oper : String) (l r : Value) : Bool :=
  if oper = "===" then jsStrictEq l r
  else if oper = "==" then jsLooseEq l r
  else if oper = "!=" then !jsLooseEq l r
  else if oper = "!==" then !jsStrictEq l r
  else if oper = "<" then jsLt l r
  else if oper = ">" then jsLt r l
  else if oper = "<=" then jsLe l r
  else if oper = ">=" then jsLe r l
  else if oper = "in" then jsIn l r
  else false

/-- A jump operand: a literal value or a nested transformation. -/
inductive Operand where
  | lit : Value → Operand
  | tmpl : Template → Operand

/-- Modelled from the spec: a `jump` step — target label, optional operands
(defaulting to `true`) and optional operator (defaulting to `===`). -/
structure JumpSpec where
  toLabel : String
  left : Option Operand
  right : Option Operand
  oper : Option String

/-- A `query` step: the query string handed to the injected capability and
the optional `resultProperty`. -/
structure QuerySpec where
  query : String
  resultProperty : Option String

/-- Modelled from the spec: a Step is either a bare-string label (a no-op
jump target) or an operation object whose optional members are applied in
the fixed order query → transform → increment → jump. -/
inductive Step where
  | label : String → Step
  | op : Option QuerySpec → Option Template → Option String → Option JumpSpec → Step

/-- Modelled from the spec: a compiled Script — name, ordered steps and the
step budget (default 1000). -/
structure Script where
  name : String
  steps : List Step
  maxSteps : Nat

inductive ScriptError where
  | maxStepsExceeded : ScriptError
  | stepError : TErr → ScriptError
  | outOfFuel : ScriptError
  | busyError : ScriptError
deriving DecidableEq, Repr

structure ExecState where
  doc : Value
  pc : Nat
  stepsExecuted : Nat

/-- Modelled from the spec: evaluate one jump operand — absent defaults to
`true`, a string starting with `/` is a document path, any other literal is
used directly, and a template operand is a nested transformation of the
document. -/
def evalOperand (tfuel : Nat) (doc : Value) : Option Operand → Except TErr Value
  | none => Except.ok (Value.bool true)
  | some (Operand.lit (Value.str s)) =>
      if startsWithSlash s then
        Except.ok (match parsePointer s with
          | some toks => normNull (ptrLookup doc toks)
          | none => Value.vnull)
      else Except.ok (Value.str s)
  | some (Operand.lit v) => Except.ok v
  | some (Operand.tmpl t) => transform tfuel t doc

/-- Modelled from the spec: the jump condition — evaluate both operands and
compare with the (defaulted) operator. -/
def evalJump (tfuel : Nat) (doc : Value) (j : JumpSpec) : Except TErr Bool :=
  match evalOperand tfuel doc j.left with
  | Except.error e => Except.error e
  | Except.ok l =>
      match evalOperand tfuel doc j.right with
      | Except.error e => Except.error e
      | Except.ok r => Except.ok (compareJs (j.oper.getD ("===")) l r)

/-- Resolve a label name to its step index; an unresolved label falls
through to the implicit end address (one past the last step). -/
def labelIndex (steps : List Step) (name : String) : Nat :=
  match steps.findIdx? (fun st =>
      match st with
      | Step.label n => n = name
      | _ => false) with
  | some i => i
  | none => steps.length

/-- Modelled from the spec: process one operation step in the fixed order
query → transform → increment → jump, returning the new document and the
jump target when the jump fired. -/
def execStep (tfuel : Nat) (qf : String → Value) (doc : Value)
    (q? : Option QuerySpec) (t? : Option Template) (inc? : Option String)
    (j? : Option JumpSpec) : Except TErr (Value × Option String) :=
  let doc1 := match q? with
    | none => doc
    | some q => applyQueryResult doc (qf q.query) q.resultProperty
  match (match t? with
    | none => Except.ok doc1
    | some t => transform tfuel t doc1) with
  | Except.error e => Except.error e
  | Except.ok doc2 =>
      let doc3 := match inc? with
        | none => doc2
        | some path => incrementAt doc2 path
      match j? with
      | none => Except.ok (doc3, none)
      | some j =>
          match evalJump tfuel doc3 j with
          | Except.error e => Except.error e
          | Except.ok taken => Except.ok (doc3, if taken then some j.toLabel else none)

/-- Modelled from the spec: the interpreter loop — fetch the step at `pc`,
count it against the budget (labels count too), apply it, advance `pc`
(sequentially, or to the jump target).  `fuel` is the embedding's recursion
bound; `run` supplies `maxSteps + 1`, and the budget check always fires
first (proved below), so the `outOfFuel` artifact is unreachable. -/
def runFrom (s : Script) (qf : String → Value) (tfuel : Nat) (fuel : Nat)
    (st : ExecState) : Except ScriptError Value :=
  if h : st.pc < s.steps.length then
    let n := st.stepsExecuted + 1
    if n > s.maxSteps then Except.error ScriptError.maxStepsExceeded
    else
      match fuel with
      | 0 => Except.error ScriptError.outOfFuel
      | fuel' + 1 =>
          match s.steps.get ⟨st.pc, h⟩ with
          | Step.label _ => runFrom s qf tfuel fuel' ⟨st.doc, st.pc + 1, n⟩
          | Step.op q? t? inc? j? =>
              match execStep tfuel qf st.doc q? t? inc? j? with
              | Except.error e => Except.error (ScriptError.stepError e)
              | Except.ok (doc', none) =>
                  runFrom s qf tfuel fuel' ⟨doc', st.pc + 1, n⟩
              | Except.ok (doc', some target) =>
                  runFrom s qf tfuel fuel' ⟨doc', labelIndex s.steps target, n⟩
  else Except.ok st.doc

/-- Modelled from the spec: `run(input)` — start at `pc = 0` with the
caller's document and a zero step count. -/
def run (s : Script) (qf : String → Value) (tfuel : Nat) (input : Value) :
    Except ScriptError Value :=
  runFrom s qf tfuel (s.maxSteps + 1) ⟨input, 0, 0⟩

/-- A Program: the compiled script together with its `busy` reentrancy
flag. -/
structure Program where
  script : Script
  busy : Bool

/-- Modelled from the spec: the reentrancy guard around `run()` — fail
synchronously when `busy` is already set, otherwise set `busy` on entry,
execute, and clear `busy` on every exit path before the call settles. -/
def runGuarded (p : Program) (qf : String → Value) (tfuel : Nat)
    (input : Value) : Program × Except ScriptError Value :=
  if p.busy then (p, Except.error ScriptError.busyError)
  else
    let entered : Program := ⟨p.script, true⟩
    let result := run entered.script qf tfuel input
    (⟨entered.script, false⟩, result)

def isOutOfFuel : Except ScriptError Value → Bool
  | Except.error ScriptError.outOfFuel => true
  | _ => false

def isBusyErr : Except ScriptError Value → Bool
  | Except.error ScriptError.busyError => true
  | _ => false

/-! ### Heap model of the clone-before-apply discipline

`transform` begins with `output = _.cloneDeep(value)` and every operation
body builds fresh values (none assigns into its argument), so the caller's
object is never mutated.  To state that as a frame property the JS heap is
modelled explicitly: nodes live at addresses, arrays/objects reference
children by address, and the evaluator's heap effect is allocation-only —
it decodes the input, allocates the `cloneDeep` copy, runs the pure
operation chain, and allocates the result. -/

inductive HNode where
  | nullN : HNode
  | undefN : HNode
  | boolN : Bool → HNode
  | numN : Int → HNode
  | strN : String → HNode
  | arrN : List Nat → HNode
  | objN : List (String × Nat) → HNode

structure Heap where
  data : List HNode

def Heap.lookup (h : Heap) (a : Nat) : Option HNode := h.data.get? a

def Heap.size (h : Heap) : Nat := h.data.length

mutual

/-- Decode the value tree rooted at an address (`fuel` bounds the depth; a
dangling reference or exhausted fuel yields `none`). -/
def extract : Nat → Heap → Nat → Option Value
  | 0, _, _ => none
  | fuel + 1, h, a =>
      match h.lookup a with
      | none => none
      | some HNode.nullN => some Value.vnull
      | some HNode.undefN => some Value.undef
      | some (HNode.boolN b) => some (Value.bool b)
      | some (HNode.numN n) => some (Value.num n)
      | some (HNode.strN s) => some (Value.str s)
      | some (HNode.arrN es) =>
          match extractL fuel h es with
          | none => none
          | some vs => some (Value.arr vs)
      | some (HNode.objN fs) =>
          match extractF fuel h fs with
          | none => none
          | some ps => some (Value.obj ps)
termination_by structural fuel _ _ => fuel

def extractL : Nat → Heap → List Nat → Option (List Value)
  | _, _, [] => some []
  | fuel, h, a :: rest =>
      match fuel with
      | 0 => none
      | f + 1 =>
          match extract f h a with
          | none => none
          | some v =>
              match extractL f h rest with
              | none => none
              | some vs => some (v :: vs)
termination_by structural fuel _ _ => fuel

def extractF : Nat → Heap → List (String × Nat) → Option (List (String × Value))
  | _, _, [] => some []
  | fuel, h, (k, a) :: rest =>
      match fuel with
      | 0 => none
      | f + 1 =>
          match extract f h a with
          | none => none
          | some v =>
              match extractF f h rest with
              | none => none
              | some ps => some ((k, v) :: ps)
termination_by structural fuel _ _ => fuel

end

mutual

/-- Materialise a value tree as fresh heap nodes (children first, root
last); the new nodes are appended, so existing addresses are untouched. -/
def allocValue (h : Heap) : Value → Heap × Nat
  | Value.vnull => (⟨h.data ++ [HNode.nullN]⟩, h.size)
  | Value.undef => (⟨h.data ++ [HNode.undefN]⟩, h.size)
  | Value.bool b => (⟨h.data ++ [HNode.boolN b]⟩, h.size)
  | Value.num n => (⟨h.data ++ [HNode.numN n]⟩, h.size)
  | Value.str s => (⟨h.data ++ [HNode.strN s]⟩, h.size)
  | Value.arr xs =>
      let (h', as) := allocList h xs
      (⟨h'.data ++ [HNode.arrN as]⟩, h'.size)
  | Value.obj fs =>
      let (h', ps) := allocFields h fs
      (⟨h'.data ++ [HNode.objN ps]⟩, h'.size)

def allocList (h : Heap) : List Value → Heap × List Nat
  | [] => (h, [])
  | v :: rest =>
      let (h1, a) := allocValue h v
      let (h2, as) := allocList h1 rest
      (h2, a :: as)

def allocFields (h : Heap) : List (String × Value) → Heap × List (String × Nat)
  | [] => (h, [])
  | (k, v) :: rest =>
      let (h1, a) := allocValue h v
      let (h2, ps) := allocFields h1 rest
      (h2, (k, a) :: ps)

end

/-- `Transformation.prototype.transform` at the heap level: decode the
input, allocate the `_.cloneDeep` copy, run the pure operation chain, and
allocate the result — the heap effect of the source, whose operation
bodies never write into existing nodes. -/
def transformH (tfuel : Nat) (t : Template) (h : Heap) (a : Nat) :
    Heap × Except TErr Nat :=
  match extract (2 * h.size + 2) h a with
  | none => (h, Except.error (TErr.typeError ("input not representable")))
  | some v =>
      let h1 := (allocValue h v).1
      match transform tfuel t v with
      | Except.error e => (h1, Except.error e)
      | Except.ok out =>
          let (h2, aOut) := allocValue h1 out
          (h2, Except.ok aOut)


/-! ### Concrete scripts and heaps exercised by the engine theorems -/

/-- A query capability that never returns data. -/
def qf0 : String → Value := fun _ => Value.vnull

/-- A query capability returning a fixed string, standing in for the
GraphQL storage of the tests. -/
def qf1 : String → Value := fun _ => Value.str ("res")

/-- The unconditional-loop script of the in-repo maxSteps test (default
budget 1000). -/
def loopScript : Script :=
  ⟨"Testscript",
   [Step.label ("start"), Step.op none none none (some ⟨"start", none, none, none⟩)],
   1000⟩

/-- The conditional jump of the raised-budget loop test: `to: end`,
`left: /i`, `right: /n`, `operator: >=`. -/
def jmp2 : JumpSpec :=
  ⟨"end", some (Operand.lit (Value.str ("/i"))), some (Operand.lit (Value.str ("/n"))),
   some (">=")⟩

/-- The counting-loop script of the raised-`maxSteps` test: label, increment
`/i`, conditional jump to `end`, unconditional jump back, end label. -/
def boundedLoopScript : Script :=
  ⟨"Testscript",
   [Step.label ("start"),
    Step.op none none (some ("/i")) none,
    Step.op none none none (some jmp2),
    Step.op none none none (some ⟨"start", none, none, none⟩),
    Step.label ("end")],
   4001⟩

/-- The loop document with its counter `i`. -/
def docNI (i : Int) : Value :=
  Value.obj [("n", Value.num 500), ("i", Value.num i)]

/-- The input document of the raised-budget loop test. -/
def docN : Value := Value.obj [("n", Value.num 500)]

/-- The `object` step writing `foo: 'bar'` from the conditional-jump test. -/
def c1Tmpl1 : Template :=
  Template.mk [OpEntry.object
    [("foo", PropT.tmpl (Template.mk [OpEntry.static (Value.str ("bar"))]))]]

/-- The final `object` step of the conditional-jump test: `foo` reads back
`/foo`, `bar` is the static string `baz`. -/
def c1Tmpl2 : Template :=
  Template.mk [OpEntry.object
    [("foo", PropT.tmpl (Template.mk [OpEntry.get (Value.str ("/foo"))])),
     ("bar", PropT.tmpl (Template.mk [OpEntry.static (Value.str ("baz"))]))]]

/-- The conditional-jump test script: jump to `last` when `1 <oper> 2`
holds, otherwise fall through the step that writes `foo: 'bar'`. -/
def c1Script (oper : String) : Script :=
  ⟨"Testscript",
   [Step.op none none none
      (some ⟨"last", some (Operand.lit (Value.num 1)),
             some (Operand.lit (Value.num 2)), some oper⟩),
    Step.op none (some c1Tmpl1) none none,
    Step.label ("last"),
    Step.op none (some c1Tmpl2) none none],
   10⟩

/-- Expected output of the conditional-jump test: when the jump is taken,
`foo` stays null; otherwise it became `'bar'`. -/
def c1Expected (b : Bool) : Value :=
  Value.obj [("foo", if b then Value.vnull else Value.str ("bar")),
             ("bar", Value.str ("baz"))]

/-- The operator table of the conditional-jump tests, with the outcomes the
engine produces on `left = 1`, `right = 2`. -/
def c1TruthTable : List (String × Bool) :=
  [("===", false), ("==", false), ("!=", true), ("!==", true),
   ("<", true), (">", false), ("<=", true), (">=", false),
   ("in", false), ("unknown", false)]

/-- The operators the jump condition recognises. -/
def knownJumpOperators : List String :=
  ["===", "==", "!=", "!==", "<", ">", "<=", ">=", "in"]

/-- A one-step script for exercising the reentrancy guard. -/
def c3Script : Script :=
  ⟨"Testscript", [Step.op none (some (Template.mk [OpEntry.object []])) none none], 10⟩

/-- A concrete two-node heap: a number at address 0, referenced by the
object at address 1. -/
def heap0 : Heap := ⟨[HNode.numN 5, HNode.objN [("x", 0)]]⟩

mutual

/-- Allocation only appends: the original heap is a prefix of the heap
`allocValue` returns. -/
def allocValue_extends : (h : Heap) → (v : Value) →
    h.data.IsPrefix (allocValue h v).1.data
  | h, Value.vnull => ⟨[HNode.nullN], rfl⟩
  | h, Value.undef => ⟨[HNode.undefN], rfl⟩
  | h, Value.bool b => ⟨[HNode.boolN b], rfl⟩
  | h, Value.num n => ⟨[HNode.numN n], rfl⟩
  | h, Value.str s => ⟨[HNode.strN s], rfl⟩
  | h, Value.arr xs => by
      have hp := allocList_extends h xs
      simp only [allocValue]
      rcases hal : allocList h xs with ⟨h1, as⟩
      rw [hal] at hp
      exact hp.trans ⟨[HNode.arrN as], rfl⟩
  | h, Value.obj fs => by
      have hp := allocFields_extends h fs
      simp only [allocValue]
      rcases hal : allocFields h fs with ⟨h1, ps⟩
      rw [hal] at hp
      exact hp.trans ⟨[HNode.objN ps], rfl⟩

def allocList_extends : (h : Heap) → (xs : List Value) →
    h.data.IsPrefix (allocList h xs).1.data
  | _, [] => List.prefix_refl _
  | h, v :: rest => by
      have hp1 := allocValue_extends h v
      simp only [allocList]
      rcases hv : allocValue h v with ⟨h1, a⟩
      rw [hv] at hp1
      have hp2 := allocList_extends h1 rest
      rcases hr : allocList h1 rest with ⟨h2, as⟩
      rw [hr] at hp2
      exact hp1.trans hp2

def allocFields_extends : (h : Heap) → (fs : List (String × Value)) →
    h.data.IsPrefix (allocFields h fs).1.data
  | _, [] => List.prefix_refl _
  | h, (k, v) :: rest => by
      have hp1 := allocValue_extends h v
      simp only [allocFields]
      rcases hv : allocValue h v with ⟨h1, a⟩
      rw [hv] at hp1
      have hp2 := allocFields_extends h1 rest
      rcases hr : allocFields h1 rest with ⟨h2, ps⟩
      rw [hr] at hp2
      exact hp1.trans hp2

end

/-! ### Properties of the Transformation evaluator -/

/-- Walking a chain prefix that succeeds with a non-nullish value consumes
exactly one fuel per entry, and the walk continues on the appended
entries. -/
theorem chain_append_ok : ∀ (l₁ : List OpEntry) (f : Nat) (v w : Value)
    (l₂ : List OpEntry), chain f l₁ v = Except.ok w → isNullish w = false →
    chain f (l₁ ++ l₂) v = chain (f - l₁.length) l₂ w := by
  intro l₁
  induction l₁ with
  | nil =>
      intro f v w l₂ h hw
      simp [chain] at h
      simp [h, chain]
  | cons op rest ih =>
      intro f v w l₂ h hw
      cases f with
      | zero => simp [chain] at h
      | succ f' =>
          simp only [chain] at h ⊢
          cases happ : applyOp f' v op with
          | error e =>
              rw [happ] at h
              simp at h
          | ok out =>
              rw [happ] at h
              simp only at h ⊢
              by_cases hn : isNullish out = true
              · rw [if_pos hn] at h
                have hww : Value.vnull = w := by simpa using h
                rw [← hww] at hw
                simp [isNullish] at hw
              · rw [if_neg hn] at h
                rw [if_neg hn]
                have := ih f' out w l₂ h hw
                simpa [Nat.succ_sub_succ] using this

/-- Once an operation in the chain produces a nullish output, the whole
chain yields `null` whatever entries follow. -/
theorem chain_short_circuit : ∀ (l₁ : List OpEntry) (f : Nat) (v w : Value)
    (l₂ : List OpEntry), isNullish v = false → chain f l₁ v = Except.ok w →
    isNullish w = true → chain f (l₁ ++ l₂) v = Except.ok Value.vnull := by
  intro l₁
  induction l₁ with
  | nil =>
      intro f v w l₂ hv h hw
      simp [chain] at h
      rw [← h] at hw
      rw [hv] at hw
      simp at hw
  | cons op rest ih =>
      intro f v w l₂ hv h hw
      cases f with
      | zero => simp [chain] at h
      | succ f' =>
          simp only [chain] at h ⊢
          cases happ : applyOp f' v op with
          | error e =>
              rw [happ] at h
              simp at h
          | ok out =>
              rw [happ] at h
              simp only at h ⊢
              by_cases hn : isNullish out = true
              · rw [if_pos hn]
              · rw [if_neg hn] at h
                rw [if_neg hn]
                exact ih f' out w l₂ (by simpa using hn) h hw

/-- C4: for every transformation template and every input value, a
null/undefined input makes the whole transform yield null immediately, and
a null/undefined intermediate result short-circuits the chain to null — no
later operation in the chain runs (the appended entries `l₂` do not affect
the result). -/
theorem c4_null_propagation :
    (∀ (fuel : Nat) (t : Template) (v : Value), isNullish v = true →
        transform fuel t v = Except.ok Value.vnull)
    ∧ (∀ (fuel : Nat) (l₁ l₂ : List OpEntry) (v w : Value),
        isNullish v = false → chain fuel l₁ v = Except.ok w →
        isNullish w = true →
        chain fuel (l₁ ++ l₂) v = Except.ok Value.vnull) := by
  constructor
  · intro fuel t v h
    cases t with
    | mk ops =>
        rw [transform.eq_def]
        simp [h]
  · intro fuel l₁ l₂ v w hv h hw
    exact chain_short_circuit l₁ fuel v w l₂ hv h hw

/-- Witness for C4 at concrete inputs: a null input, and the source
comment's own example — `get` of a missing path followed by an operation
that would throw on null (`length`), short-circuiting to null. -/
theorem c4_null_propagation_witness :
    transform 5 (Template.mk [OpEntry.lengthOp]) Value.vnull
      = Except.ok Value.vnull
    ∧ chain 5 ([OpEntry.get (Value.str "/missing")] ++ [OpEntry.lengthOp])
        (Value.obj []) = Except.ok Value.vnull :=
  ⟨c4_null_propagation.1 5 (Template.mk [OpEntry.lengthOp]) Value.vnull rfl,
   c4_null_propagation.2 5 [OpEntry.get (Value.str "/missing")]
     [OpEntry.lengthOp] (Value.obj []) Value.vnull rfl rfl rfl⟩

/-- C9 counterexample: a template whose only key is unknown, evaluated on a
null input, returns null — it does not fail with an "unknown function"
error, because `transform` bails out before dispatching any key. -/
theorem c9_counterexample :
    transform 5 (Template.mk [OpEntry.unknown "foo" Value.vnull]) Value.vnull
      = Except.ok Value.vnull := rfl

/-- Dispatching a template key with no matching method throws the
"unknown function" error regardless of fuel and input. -/
theorem applyOp_unknown (fuel : Nat) (v : Value) (key : String) (opts : Value) :
    applyOp fuel v (OpEntry.unknown key opts)
      = Except.error (TErr.unknownFunction key) := by
  cases fuel <;> rfl

/-- C9 (amended): evaluating a template fails with the "unknown function"
error exactly when evaluation reaches the unknown key — the input is not
nullish and the preceding entries produce a non-nullish value (the fuel
bound keeps the embedding's stack artifact out of the way). -/
theorem c9_unknown_function :
    ∀ (fuel : Nat) (l₁ l₂ : List OpEntry) (key : String) (opts : Value)
      (v w : Value), isNullish v = false →
      chain fuel l₁ v = Except.ok w → isNullish w = false →
      l₁.length < fuel →
      transform (fuel + 1) (Template.mk (l₁ ++ OpEntry.unknown key opts :: l₂)) v
        = Except.error (TErr.unknownFunction key) := by
  intro fuel l₁ l₂ key opts v w hv h hw hlen
  have h1 : transform (fuel + 1)
      (Template.mk (l₁ ++ OpEntry.unknown key opts :: l₂)) v
      = chain fuel (l₁ ++ OpEntry.unknown key opts :: l₂) v := by
    rw [transform.eq_def]
    simp [hv, cloneDeepV]
  rw [h1, chain_append_ok l₁ fuel v w (OpEntry.unknown key opts :: l₂) h hw]
  obtain ⟨f', hf⟩ : ∃ f', fuel - l₁.length = f' + 1 :=
    ⟨fuel - l₁.length - 1, by omega⟩
  rw [hf]
  simp only [chain]
  simp [applyOp_unknown]

/-- Witness for C9's amended statement at a concrete input. -/
theorem c9_unknown_function_witness :
    transform 3 (Template.mk
        ([OpEntry.static (Value.num 1)] ++ OpEntry.unknown "foo" Value.vnull :: []))
      (Value.obj []) = Except.error (TErr.unknownFunction "foo") :=
  c9_unknown_function 2 [OpEntry.static (Value.num 1)] [] "foo" Value.vnull
    (Value.obj []) (Value.num 1) rfl rfl rfl (by decide)

/-- C5 counterexample: `join` on a non-array input throws a typed error —
it does not degrade to null (the claim also fails for `count`, which
returns `0` rather than null, and for `slice`, which throws). -/
theorem c5_counterexample :
    applyOp 0 (Value.num 5) (OpEntry.join (Value.obj []))
      = Except.error
          (TErr.typeError ("Value for join transformation must be an array"))
    ∧ applyOp 0 (Value.num 5) OpEntry.count = Except.ok (Value.num 0) :=
  ⟨rfl, rfl⟩

/-- C5 (amended): `lowerCase`, `upperCase`, `camelCase`, `kebabCase`,
`snakeCase`, `nameCase`, `capitalize`, `deburr` and `replace` return null
on a non-matching input type without throwing; `count` returns `0` (not
null); `join` and `slice` throw a typed error on non-array input, as do
`substring` and `length` on a wrong input type. -/
theorem c5_type_mismatch_behaviour :
    (∀ (fuel : Nat) (v : Value), isStr v = false →
        applyOp fuel v OpEntry.lowerCase = Except.ok Value.vnull
        ∧ applyOp fuel v OpEntry.upperCase = Except.ok Value.vnull
        ∧ applyOp fuel v OpEntry.camelCase = Except.ok Value.vnull
        ∧ applyOp fuel v OpEntry.kebabCase = Except.ok Value.vnull
        ∧ applyOp fuel v OpEntry.snakeCase = Except.ok Value.vnull
        ∧ applyOp fuel v OpEntry.nameCase = Except.ok Value.vnull
        ∧ applyOp fuel v OpEntry.capitalize = Except.ok Value.vnull
        ∧ applyOp fuel v OpEntry.deburr = Except.ok Value.vnull)
    ∧ (∀ (fuel : Nat) (v : Value) (se re : String), isStr v = false →
        applyOp fuel v (OpEntry.replace
            (Value.obj [("search", Value.str se), ("replace", Value.str re)]))
          = Except.ok Value.vnull)
    ∧ (∀ (fuel : Nat) (v : Value), isStr v = false → isArr v = false →
        applyOp fuel v OpEntry.count = Except.ok (Value.num 0))
    ∧ (∀ (fuel : Nat) (v : Value) (o : Value), isArr v = false →
        applyOp fuel v (OpEntry.join o) = Except.error
          (TErr.typeError ("Value for join transformation must be an array")))
    ∧ (∀ (fuel : Nat) (v : Value) (o : Value), isArr v = false →
        applyOp fuel v (OpEntry.slice o) = Except.error
          (TErr.typeError ("Value for slice transformation must be an array")))
    ∧ (∀ (fuel : Nat) (v : Value) (o : Value), isStr v = false →
        applyOp fuel v (OpEntry.substring o) = Except.error
          (TErr.typeError ("Cannot execute substring on " ++ jsTypeof v)))
    ∧ (∀ (fuel : Nat) (v : Value), isStr v = false → isArr v = false →
        applyOp fuel v OpEntry.lengthOp = Except.error
          (TErr.typeError ("Can only get length of arrays and strings"))) := by
  refine ⟨?_, ?_, ?_, ?_, ?_, ?_, ?_⟩
  · intro fuel v h
    cases v <;> cases fuel <;> first
      | exact ⟨rfl, rfl, rfl, rfl, rfl, rfl, rfl, rfl⟩
      | exact absurd h (by simp [isStr])
  · intro fuel v se re h
    cases v <;> cases fuel <;> first
      | rfl
      | exact absurd h (by simp [isStr])
  · intro fuel v h1 h2
    cases v with
    | str s => exact absurd h1 (by simp [isStr])
    | arr xs => exact absurd h2 (by simp [isArr])
    | vnull => cases fuel <;> rfl
    | undef => cases fuel <;> rfl
    | bool b => cases fuel <;> rfl
    | num n => cases fuel <;> rfl
    | obj fs => cases fuel <;> rfl
  · intro fuel v o h
    cases v <;> cases fuel <;> first
      | rfl
      | exact absurd h (by simp [isArr])
  · intro fuel v o h
    cases v <;> cases fuel <;> first
      | rfl
      | exact absurd h (by simp [isArr])
  · intro fuel v o h
    cases v <;> cases fuel <;> first
      | rfl
      | exact absurd h (by simp [isStr])
  · intro fuel v h1 h2
    cases v with
    | str s => exact absurd h1 (by simp [isStr])
    | arr xs => exact absurd h2 (by simp [isArr])
    | vnull => cases fuel <;> rfl
    | undef => cases fuel <;> rfl
    | bool b => cases fuel <;> rfl
    | num n => cases fuel <;> rfl
    | obj fs => cases fuel <;> rfl

/-- Witness for C5's amended statement at concrete inputs. -/
theorem c5_type_mismatch_behaviour_witness :
    applyOp 0 (Value.num 7) OpEntry.lowerCase = Except.ok Value.vnull
    ∧ applyOp 0 (Value.num 7) (OpEntry.replace
        (Value.obj [("search", Value.str "a"), ("replace", Value.str "b")]))
        = Except.ok Value.vnull
    ∧ applyOp 0 (Value.bool true) OpEntry.count = Except.ok (Value.num 0)
    ∧ applyOp 0 (Value.str "xs") (OpEntry.slice (Value.obj []))
        = Except.error
            (TErr.typeError ("Value for slice transformation must be an array"))
    ∧ applyOp 0 (Value.num 7) (OpEntry.substring (Value.obj []))
        = Except.error (TErr.typeError ("Cannot execute substring on number"))
    ∧ applyOp 0 (Value.bool true) OpEntry.lengthOp
        = Except.error
            (TErr.typeError ("Can only get length of arrays and strings")) :=
  ⟨(c5_type_mismatch_behaviour.1 0 (Value.num 7) rfl).1,
   c5_type_mismatch_behaviour.2.1 0 (Value.num 7) "a" "b" rfl,
   c5_type_mismatch_behaviour.2.2.1 0 (Value.bool true) rfl rfl,
   c5_type_mismatch_behaviour.2.2.2.2.1 0 (Value.str "xs") (Value.obj []) rfl,
   by
     have := c5_type_mismatch_behaviour.2.2.2.2.2.1 0 (Value.num 7) (Value.obj []) rfl
     simpa [jsTypeof] using this,
   c5_type_mismatch_behaviour.2.2.2.2.2.2 0 (Value.bool true) rfl rfl⟩

/-- C6: for every input value and every string pointer argument, `get`
returns what the `jsonpointer` traversal addresses and converts every
traversal exception (including the property-read-on-null `TypeError` the
source comment describes) into null — it never throws.  The second and
third conjuncts exhibit the comment's own example. -/
theorem c6_get_never_throws :
    (∀ (fuel : Nat) (v : Value) (s : String),
        applyOp fuel v (OpEntry.get (Value.str s))
          = Except.ok (match jsonPointerGet v s with
              | Except.ok w => w
              | Except.error _ => Value.vnull))
    ∧ applyOp 0 (Value.obj [("a", Value.vnull)]) (OpEntry.get (Value.str "/a/b"))
        = Except.ok Value.vnull
    ∧ jsonPointerGet (Value.obj [("a", Value.vnull)]) "/a/b"
        = Except.error ("TypeError: cannot read property of null")
    ∧ jsonPointerGet (Value.obj [("a", Value.obj [])]) "/a/b"
        = Except.ok Value.undef := by
  refine ⟨?_, rfl, rfl, rfl⟩
  intro fuel v s
  cases fuel <;> rfl

/-! ### `changed` / `change` as structural inverses -/

theorem lookup_cons (p : String × Value) (rest : List (String × Value))
    (k : String) :
    (p :: rest).lookup k = if k = p.1 then some p.2 else rest.lookup k := by
  obtain ⟨a, b⟩ := p
  by_cases hk : k = a
  · subst hk
    simp [List.lookup]
  · simp [List.lookup, beq_false_of_ne hk, hk]

theorem lookup_eq_none_of_not_mem {l : List (String × Value)} {k : String}
    (h : k ∉ l.map Prod.fst) : l.lookup k = none := by
  induction l with
  | nil => rfl
  | cons p rest ih =>
      simp only [List.map_cons, List.mem_cons] at h
      push_neg at h
      rw [lookup_cons, if_neg h.1, ih h.2]

theorem lookup_mem {l : List (String × Value)} {k : String} {v : Value}
    (h : l.lookup k = some v) : (k, v) ∈ l := by
  induction l with
  | nil => simp [List.lookup] at h
  | cons p rest ih =>
      obtain ⟨a, b⟩ := p
      rw [lookup_cons] at h
      by_cases hk : k = a
      · rw [if_pos (by simpa using hk)] at h
        simp only at h
        injection h with hbv
        rw [List.mem_cons]
        left
        rw [hk, hbv]
      · rw [if_neg (by simpa using hk)] at h
        exact List.mem_cons_of_mem _ (ih h)

theorem lookup_filter_self (t : List (String × Value)) (k : String) :
    (t.filter (fun p => p.1 ≠ k)).lookup k = none := by
  induction t with
  | nil => rfl
  | cons p rest ih =>
      by_cases hp : p.1 = k
      · rw [List.filter_cons, if_neg (by simpa using hp)]
        exact ih
      · rw [List.filter_cons, if_pos (by simpa using hp)]
        rw [lookup_cons, if_neg (fun e => hp e.symm)]
        exact ih

theorem lookup_filter_other (t : List (String × Value)) (k k' : String)
    (h : k ≠ k') : (t.filter (fun p => p.1 ≠ k')).lookup k = t.lookup k := by
  induction t with
  | nil => rfl
  | cons p rest ih =>
      by_cases hp : p.1 = k'
      · rw [List.filter_cons, if_neg (by simpa using hp)]
        rw [ih, lookup_cons, if_neg (fun e => h (e.trans hp))]
      · rw [List.filter_cons, if_pos (by simpa using hp)]
        rw [lookup_cons, lookup_cons]
        by_cases hk : k = p.1
        · rw [if_pos hk, if_pos hk]
        · rw [if_neg hk, if_neg hk]
          exact ih

theorem lookup_updateAssoc_self (t : List (String × Value)) (k : String)
    (v : Value) : (updateAssoc t k v).lookup k = some v := by
  induction t with
  | nil => rw [updateAssoc, lookup_cons, if_pos rfl]
  | cons p rest ih =>
      rw [updateAssoc]
      by_cases hp : p.1 = k
      · rw [if_pos hp, lookup_cons, if_pos rfl]
      · rw [if_neg hp, lookup_cons, if_neg (fun e => hp e.symm)]
        exact ih

theorem lookup_updateAssoc_other (t : List (String × Value)) (k k' : String)
    (v : Value) (h : k ≠ k') :
    (updateAssoc t k' v).lookup k = t.lookup k := by
  induction t with
  | nil =>
      rw [updateAssoc, lookup_cons, if_neg h]
  | cons p rest ih =>
      rw [updateAssoc]
      by_cases hp : p.1 = k'
      · rw [if_pos hp, lookup_cons, lookup_cons]
        rw [if_neg (by simpa using h)]
        rw [if_neg (show ¬(k = p.1) from by rw [hp]; exact h)]
      · rw [if_neg hp, lookup_cons, lookup_cons]
        by_cases hk : k = p.1
        · rw [if_pos hk, if_pos hk]
        · rw [if_neg hk, if_neg hk]
          exact ih

theorem normNull_some {v : Value} (h : isNullish v = false) :
    normNull (some v) = v := by
  cases v <;> simp_all [normNull, isNullish]

/-- What `change` leaves at a key: a null change deletes it, a non-null
change overwrites it, an untouched key keeps the target's binding. -/
theorem changeOp_lookup : ∀ (cs t : List (String × Value)) (k : String),
    (cs.map Prod.fst).Nodup →
    (changeOp t cs).lookup k
      = (match cs.lookup k with
          | some v => if v = Value.vnull then none else some v
          | none => t.lookup k) := by
  intro cs
  induction cs with
  | nil => intro t k _; rfl
  | cons p rest ih =>
      intro t k hnd
      obtain ⟨k', v'⟩ := p
      simp only [List.map_cons, List.nodup_cons] at hnd
      have step : changeOp t ((k', v') :: rest)
          = changeOp (if v' = Value.vnull then t.filter (fun p => p.1 ≠ k')
              else updateAssoc t k' v') rest := by
        simp [changeOp]
      rw [step, ih _ k hnd.2]
      by_cases hk : k = k'
      · subst hk
        have hrest0 : rest.lookup k = none :=
          lookup_eq_none_of_not_mem (by simpa using hnd.1)
        have hcons : ((k, v') :: rest).lookup k = some v' := by
          rw [lookup_cons, if_pos rfl]
        simp only [hrest0, hcons]
        by_cases hv : v' = Value.vnull
        · rw [if_pos hv, if_pos hv]
          exact lookup_filter_self t k
        · rw [if_neg hv, if_neg hv]
          exact lookup_updateAssoc_self t k v'
      · have hcons : ((k', v') :: rest).lookup k = rest.lookup k := by
          rw [lookup_cons, if_neg hk]
        simp only [hcons]
        cases hrest : rest.lookup k with
        | some w => rfl
        | none =>
            by_cases hv : v' = Value.vnull
            · rw [if_pos hv]
              exact lookup_filter_other t k k' hk
            · rw [if_neg hv]
              exact lookup_updateAssoc_other t k k' v' hk

theorem filterMap_keys_mem {ks : List String}
    {f : String → Option Value} {k : String}
    (h : k ∈ (ks.filterMap (fun k' => (f k').map (fun v => (k', v)))).map
        Prod.fst) : k ∈ ks := by
  induction ks with
  | nil => simp at h
  | cons a rest ih =>
      rw [List.filterMap_cons] at h
      cases hf : f a with
      | none =>
          rw [hf] at h
          exact List.mem_cons_of_mem _ (ih h)
      | some v =>
          rw [hf] at h
          simp only [Option.map_some', List.map_cons, List.mem_cons] at h
          cases h with
          | inl he => rw [he]; exact List.mem_cons_self _ _
          | inr hm => exact List.mem_cons_of_mem _ (ih hm)

theorem filterMap_keys_nodup {ks : List String} {f : String → Option Value}
    (hnd : ks.Nodup) :
    ((ks.filterMap (fun k' => (f k').map (fun v => (k', v)))).map
        Prod.fst).Nodup := by
  induction ks with
  | nil => simp
  | cons a rest ih =>
      rw [List.nodup_cons] at hnd
      rw [List.filterMap_cons]
      cases hf : f a with
      | none =>
          simp only [Option.map_none']
          exact ih hnd.2
      | some v =>
          simp only [Option.map_some', List.map_cons, List.nodup_cons]
          exact ⟨fun hm => hnd.1 (filterMap_keys_mem hm), ih hnd.2⟩

theorem lookup_filterMap_keys {ks : List String} {f : String → Option Value}
    {k : String} (hnd : ks.Nodup) :
    (ks.filterMap (fun k' => (f k').map (fun v => (k', v)))).lookup k
      = if k ∈ ks then f k else none := by
  induction ks with
  | nil => simp [List.lookup]
  | cons a rest ih =>
      rw [List.nodup_cons] at hnd
      rw [List.filterMap_cons]
      by_cases hk : k = a
      · subst hk
        rw [if_pos (List.mem_cons_self _ _)]
        cases hf : f k with
        | none =>
            simp only [Option.map_none']
            rw [ih hnd.2, if_neg hnd.1]
        | some v =>
            simp only [Option.map_some']
            rw [lookup_cons, if_pos rfl]
      · have hcond : (if k ∈ a :: rest then f k else none)
            = (if k ∈ rest then f k else none) :=
          if_congr (by simp [List.mem_cons, hk]) rfl rfl
        rw [hcond]
        cases hf : f a with
        | none =>
            simp only [Option.map_none']
            rw [ih hnd.2]
        | some v =>
            simp only [Option.map_some']
            rw [lookup_cons, if_neg hk, ih hnd.2]

/-- `changed` as a key-indexed filterMap, for lookup reasoning. -/
theorem changedOp_shape (left right : List (String × Value)) :
    changedOp left right
      = ((left.map Prod.fst ++ right.map Prod.fst).dedup).filterMap
          (fun k' => (if normNull (left.lookup k') = normNull (right.lookup k')
              then none
              else some (normNull (right.lookup k'))).map (fun v => (k', v))) := by
  rw [changedOp]
  congr 1
  funext k'
  by_cases h : normNull (left.lookup k') = normNull (right.lookup k')
  · rw [if_pos h, if_pos h]
    rfl
  · rw [if_neg h, if_neg h]
    rfl

/-- The entry `changed` reports at a key. -/
theorem changedOp_lookup (left right : List (String × Value)) (k : String) :
    (changedOp left right).lookup k
      = if (k ∈ left.map Prod.fst ∨ k ∈ right.map Prod.fst)
          ∧ normNull (left.lookup k) ≠ normNull (right.lookup k)
        then some (normNull (right.lookup k)) else none := by
  rw [changedOp_shape, lookup_filterMap_keys (List.nodup_dedup _)]
  by_cases hmem : k ∈ left.map Prod.fst ∨ k ∈ right.map Prod.fst
  · rw [if_pos (by simpa [List.mem_dedup, List.mem_append] using hmem)]
    by_cases hne : normNull (left.lookup k) = normNull (right.lookup k)
    · rw [if_pos hne, if_neg (by simp [hne])]
    · rw [if_neg hne, if_pos ⟨hmem, hne⟩]
  · rw [if_neg (by simpa [List.mem_dedup, List.mem_append] using hmem)]
    rw [if_neg (fun hc => hmem hc.1)]

theorem changedOp_keys_nodup (left right : List (String × Value)) :
    ((changedOp left right).map Prod.fst).Nodup := by
  rw [changedOp_shape]
  exact filterMap_keys_nodup (List.nodup_dedup _)

/-- C7 counterexample: with `left = {}` and `right = {k: null}`, applying
`change` to `changed`'s diff gives `{}`, not `right` — the null/missing
identification (fixed by the in-repo test) defeats exact inversion when a
top-level value is null. -/
theorem c7_counterexample :
    changeOp [] (changedOp [] [("k", Value.vnull)]) = ([] : List (String × Value))
    ∧ (changeOp [] (changedOp [] [("k", Value.vnull)])).lookup "k" = none
    ∧ ([("k", Value.vnull)] : List (String × Value)).lookup "k"
        = some Value.vnull := ⟨rfl, rfl, rfl⟩

/-- C7 (amended): for plain objects with duplicate-free keys whose
top-level values are not null/undefined, `change` applied to `changed`'s
diff reproduces `right` exactly — key for key (`change` is the structural
inverse of `changed` away from null-valued keys, where the null/missing
identification loses information). -/
theorem c7_change_inverts_changed :
    ∀ (left right : List (String × Value)),
      (left.map Prod.fst).Nodup → (right.map Prod.fst).Nodup →
      (∀ p, p ∈ left → isNullish p.2 = false) →
      (∀ p, p ∈ right → isNullish p.2 = false) →
      ∀ k, (changeOp left (changedOp left right)).lookup k = right.lookup k := by
  intro left right hlnd hrnd hln hrn k
  rw [changeOp_lookup _ _ _ (changedOp_keys_nodup left right),
    changedOp_lookup]
  cases hr : right.lookup k with
  | some v =>
      have hrv : isNullish v = false := hrn _ (lookup_mem hr)
      have hrs : normNull (some v) = v := normNull_some hrv
      have hvnn : v ≠ Value.vnull := by
        intro e
        rw [e] at hrv
        simp [isNullish] at hrv
      rw [hrs]
      by_cases hne : normNull (left.lookup k) = v
      · rw [if_neg (fun hc => hc.2 hne)]
        cases hl : left.lookup k with
        | some w =>
            have hlw : isNullish w = false := hln _ (lookup_mem hl)
            rw [hl, normNull_some hlw] at hne
            rw [hne]
        | none =>
            rw [hl] at hne
            exact absurd (show Value.vnull = v from hne).symm hvnn
      · have hmem : k ∈ right.map Prod.fst :=
          List.mem_map_of_mem Prod.fst (lookup_mem hr)
        rw [if_pos ⟨Or.inr hmem, hne⟩]
        simp only []
        rw [if_neg hvnn]
  | none =>
      by_cases hnl : normNull (left.lookup k) = Value.vnull
      · rw [if_neg (fun hc => hc.2 (by rw [hnl]; rfl))]
        cases hl : left.lookup k with
        | some w =>
            have hlw : isNullish w = false := hln _ (lookup_mem hl)
            rw [hl, normNull_some hlw] at hnl
            rw [hnl] at hlw
            simp [isNullish] at hlw
        | none => rfl
      · have hmeml : k ∈ left.map Prod.fst := by
          cases hl : left.lookup k with
          | some w => exact List.mem_map_of_mem Prod.fst (lookup_mem hl)
          | none =>
              rw [hl] at hnl
              exact absurd rfl hnl
        rw [if_pos ⟨Or.inl hmeml, fun e => hnl e⟩]
        simp [normNull]

/-- Witness for C7's amended statement at the in-repo test's objects. -/
theorem c7_change_inverts_changed_witness :
    (changeOp
        [("a", Value.num 1), ("b", Value.str "test"),
         ("c", Value.obj [("foo", Value.str "bar")]),
         ("d", Value.obj [("foo", Value.str "bar")])]
        (changedOp
          [("a", Value.num 1), ("b", Value.str "test"),
           ("c", Value.obj [("foo", Value.str "bar")]),
           ("d", Value.obj [("foo", Value.str "bar")])]
          [("a", Value.num 1), ("e", Value.str "test"),
           ("c", Value.obj [("foo", Value.str "baz")]),
           ("d", Value.obj [("foo", Value.str "bar")])])).lookup "c"
      = ([("a", Value.num 1), ("e", Value.str "test"),
          ("c", Value.obj [("foo", Value.str "baz")]),
          ("d", Value.obj [("foo", Value.str "bar")])] :
            List (String × Value)).lookup "c" :=
  c7_change_inverts_changed
    [("a", Value.num 1), ("b", Value.str "test"),
     ("c", Value.obj [("foo", Value.str "bar")]),
     ("d", Value.obj [("foo", Value.str "bar")])]
    [("a", Value.num 1), ("e", Value.str "test"),
     ("c", Value.obj [("foo", Value.str "baz")]),
     ("d", Value.obj [("foo", Value.str "bar")])]
    (by decide) (by decide) (by decide) (by decide) "c"

/-! ### Properties of the Script engine -/

/-- The interpreter's fuel artifact is unreachable: with more fuel than
remaining budget, `runFrom` never reports `outOfFuel`. -/
theorem runFrom_never_outOfFuel : ∀ (fuel : Nat) (s : Script)
    (qf : String → Value) (tf : Nat) (st : ExecState),
    s.maxSteps < fuel + st.stepsExecuted →
    isOutOfFuel (runFrom s qf tf fuel st) = false := by
  intro fuel
  induction fuel with
  | zero =>
      intro s qf tf st hlt
      rw [runFrom]
      by_cases hpc : st.pc < s.steps.length
      · rw [dif_pos hpc]
        simp only []
        rw [if_pos (by omega)]
        rfl
      · rw [dif_neg hpc]
        rfl
  | succ f ih =>
      intro s qf tf st hlt
      rw [runFrom]
      by_cases hpc : st.pc < s.steps.length
      · rw [dif_pos hpc]
        simp only []
        by_cases hbudget : st.stepsExecuted + 1 > s.maxSteps
        · rw [if_pos hbudget]
          rfl
        · rw [if_neg hbudget]
          cases hstep : s.steps.get ⟨st.pc, hpc⟩ with
          | label name => exact ih s qf tf _ (by simp only []; omega)
          | op q t inc j =>
              simp only []
              cases hex : execStep tf qf st.doc q t inc j with
              | error e => rfl
              | ok pr =>
                  obtain ⟨doc', tgt⟩ := pr
                  cases tgt with
                  | none => exact ih s qf tf _ (by simp only []; omega)
                  | some target => exact ih s qf tf _ (by simp only []; omega)
      · rw [dif_neg hpc]
        rfl

/-- The unconditional loop trips the budget from any point of the loop. -/
theorem loopScript_exceeds : ∀ (fuel : Nat) (doc : Value) (pc se : Nat),
    pc < 2 → 1000 < fuel + se →
    runFrom loopScript qf0 0 fuel ⟨doc, pc, se⟩
      = Except.error ScriptError.maxStepsExceeded := by
  intro fuel
  induction fuel with
  | zero =>
      intro doc pc se hpc hlt
      rw [runFrom, dif_pos (show (⟨doc, pc, se⟩ : ExecState).pc < loopScript.steps.length from hpc)]
      simp only []
      rw [if_pos (show (⟨doc, pc, se⟩ : ExecState).stepsExecuted + 1 > loopScript.maxSteps from (by omega : se + 1 > 1000))]
  | succ f ih =>
      intro doc pc se hpc hlt
      by_cases hb : se + 1 > 1000
      · rw [runFrom, dif_pos (show (⟨doc, pc, se⟩ : ExecState).pc < loopScript.steps.length from hpc)]
        simp only []
        rw [if_pos (show (⟨doc, pc, se⟩ : ExecState).stepsExecuted + 1 > loopScript.maxSteps from hb)]
      · rw [runFrom, dif_pos (show (⟨doc, pc, se⟩ : ExecState).pc < loopScript.steps.length from hpc)]
        simp only []
        rw [if_neg (show ¬ (⟨doc, pc, se⟩ : ExecState).stepsExecuted + 1 > loopScript.maxSteps from hb)]
        rcases (by omega : pc = 0 ∨ pc = 1) with rfl | rfl
        · exact ih doc 1 (se + 1) (by decide) (by omega)
        · exact ih doc 0 (se + 1) (by decide) (by omega)

/-- One interpreter transition, with the budget check discharged. -/
theorem runFrom_succ (s : Script) (qf : String → Value) (tf f : Nat)
    (doc : Value) (pc se : Nat) (hpc : pc < s.steps.length)
    (hb : ¬ se + 1 > s.maxSteps) :
    runFrom s qf tf (f + 1) ⟨doc, pc, se⟩ =
      (match s.steps.get ⟨pc, hpc⟩ with
       | Step.label _ => runFrom s qf tf f ⟨doc, pc + 1, se + 1⟩
       | Step.op q? t? inc? j? =>
           match execStep tf qf doc q? t? inc? j? with
           | Except.error e => Except.error (ScriptError.stepError e)
           | Except.ok (doc', none) =>
               runFrom s qf tf f ⟨doc', pc + 1, se + 1⟩
           | Except.ok (doc', some target) =>
               runFrom s qf tf f ⟨doc', labelIndex s.steps target, se + 1⟩) := by
  rw [runFrom, dif_pos (show (⟨doc, pc, se⟩ : ExecState).pc < s.steps.length from hpc)]
  simp only []
  rw [if_neg (show ¬ (⟨doc, pc, se⟩ : ExecState).stepsExecuted + 1 > s.maxSteps from hb)]

/-- The conditional jump does not fire while the counter is below 500. -/
theorem bcond_exec_false (K : Int) (hK : ¬ (500 : Int) ≤ K) :
    execStep 0 qf0 (docNI K) none none none (some jmp2)
      = Except.ok (docNI K, none) := by
  have h2 : execStep 0 qf0 (docNI K) none none none (some jmp2)
      = Except.ok (docNI K,
          if compareJs (">=") (Value.num K) (Value.num 500) then some ("end")
          else none) := rfl
  have h1 : compareJs (">=") (Value.num K) (Value.num 500)
      = decide ((500 : Int) ≤ K) := rfl
  rw [h2, h1]
  simp [hK]

/-- The conditional jump fires once the counter reaches 500. -/
theorem bcond_exec_true (K : Int) (hK : (500 : Int) ≤ K) :
    execStep 0 qf0 (docNI K) none none none (some jmp2)
      = Except.ok (docNI K, some ("end")) := by
  have h2 : execStep 0 qf0 (docNI K) none none none (some jmp2)
      = Except.ok (docNI K,
          if compareJs (">=") (Value.num K) (Value.num 500) then some ("end")
          else none) := rfl
  have h1 : compareJs (">=") (Value.num K) (Value.num 500)
      = decide ((500 : Int) ≤ K) := rfl
  rw [h2, h1]
  simp [hK]

theorem bstep1 (f se : Nat) (K : Int) (hb : ¬ se + 1 > 4001) :
    runFrom boundedLoopScript qf0 0 (f + 1) ⟨docNI K, 1, se⟩
      = runFrom boundedLoopScript qf0 0 f ⟨docNI (K + 1), 2, se + 1⟩ := by
  rw [runFrom_succ boundedLoopScript qf0 0 f (docNI K) 1 se (by decide) hb]
  rfl

theorem bstep2_loop (f se : Nat) (K : Int) (hb : ¬ se + 1 > 4001)
    (hK : ¬ (500 : Int) ≤ K) :
    runFrom boundedLoopScript qf0 0 (f + 1) ⟨docNI K, 2, se⟩
      = runFrom boundedLoopScript qf0 0 f ⟨docNI K, 3, se + 1⟩ := by
  rw [runFrom_succ boundedLoopScript qf0 0 f (docNI K) 2 se (by decide) hb]
  have eg : boundedLoopScript.steps.get ⟨2, by decide⟩
      = Step.op none none none (some jmp2) := rfl
  rw [eg]
  simp only []
  rw [bcond_exec_false K hK]

theorem bstep2_exit (f se : Nat) (K : Int) (hb : ¬ se + 1 > 4001)
    (hK : (500 : Int) ≤ K) :
    runFrom boundedLoopScript qf0 0 (f + 1) ⟨docNI K, 2, se⟩
      = runFrom boundedLoopScript qf0 0 f ⟨docNI K, 4, se + 1⟩ := by
  rw [runFrom_succ boundedLoopScript qf0 0 f (docNI K) 2 se (by decide) hb]
  have eg : boundedLoopScript.steps.get ⟨2, by decide⟩
      = Step.op none none none (some jmp2) := rfl
  rw [eg]
  simp only []
  rw [bcond_exec_true K hK]
  rfl

theorem bstep3 (f se : Nat) (K : Int) (hb : ¬ se + 1 > 4001) :
    runFrom boundedLoopScript qf0 0 (f + 1) ⟨docNI K, 3, se⟩
      = runFrom boundedLoopScript qf0 0 f ⟨docNI K, 0, se + 1⟩ := by
  rw [runFrom_succ boundedLoopScript qf0 0 f (docNI K) 3 se (by decide) hb]
  rfl

theorem bstep0 (f se : Nat) (K : Int) (hb : ¬ se + 1 > 4001) :
    runFrom boundedLoopScript qf0 0 (f + 1) ⟨docNI K, 0, se⟩
      = runFrom boundedLoopScript qf0 0 f ⟨docNI K, 1, se + 1⟩ := by
  rw [runFrom_succ boundedLoopScript qf0 0 f (docNI K) 0 se (by decide) hb]
  rfl

theorem bstep4 (f se : Nat) (K : Int) (hb : ¬ se + 1 > 4001) :
    runFrom boundedLoopScript qf0 0 (f + 1) ⟨docNI K, 4, se⟩
      = runFrom boundedLoopScript qf0 0 f ⟨docNI K, 5, se + 1⟩ := by
  rw [runFrom_succ boundedLoopScript qf0 0 f (docNI K) 4 se (by decide) hb]
  rfl

theorem bexit (fuel se : Nat) (K : Int) :
    runFrom boundedLoopScript qf0 0 fuel ⟨docNI K, 5, se⟩
      = Except.ok (docNI K) := by
  rw [runFrom, dif_neg (show ¬ (⟨docNI K, 5, se⟩ : ExecState).pc < boundedLoopScript.steps.length from (by decide : ¬ (5 : Nat) < 5))]

/-- From the top of the loop body with counter `c`, the bounded loop runs to
completion with the expected counters, provided fuel and budget cover the
remaining `500 - c` iterations. -/
theorem boundedLoop_iter : ∀ (fuel : Nat) (c : Nat) (se : Nat),
    c < 500 → 4 * (500 - c) ≤ fuel → se + 4 * (500 - c) ≤ 4001 →
    runFrom boundedLoopScript qf0 0 fuel ⟨docNI (c : Int), 1, se⟩
      = Except.ok (docNI 500) := by
  intro fuel
  induction fuel using Nat.strong_induction_on with
  | _ fuel ih =>
  intro c se hc hf hse
  obtain ⟨f, rfl⟩ : ∃ f, fuel = f + 4 := ⟨fuel - 4, by omega⟩
  rw [bstep1 (f + 3) se (c : Int) (by omega)]
  by_cases hlast : c + 1 = 500
  · rw [bstep2_exit (f + 2) (se + 1) ((c : Int) + 1) (by omega) (by omega)]
    rw [bstep4 (f + 1) (se + 2) ((c : Int) + 1) (by omega)]
    rw [bexit (f + 1) (se + 3) ((c : Int) + 1)]
    have : ((c : Int) + 1) = 500 := by omega
    rw [this]
  · rw [bstep2_loop (f + 2) (se + 1) ((c : Int) + 1) (by omega) (by omega)]
    rw [bstep3 (f + 1) (se + 2) ((c : Int) + 1) (by omega)]
    rw [bstep0 f (se + 3) ((c : Int) + 1) (by omega)]
    have hcast : ((c : Int) + 1) = ((c + 1 : Nat) : Int) := by push_cast; ring
    rw [hcast]
    exact ih f (by omega) (c + 1) (se + 4) (by omega) (by omega) (by omega)

theorem bpre0 (f se : Nat) (hb : ¬ se + 1 > 4001) :
    runFrom boundedLoopScript qf0 0 (f + 1) ⟨docN, 0, se⟩
      = runFrom boundedLoopScript qf0 0 f ⟨docN, 1, se + 1⟩ := by
  rw [runFrom_succ boundedLoopScript qf0 0 f docN 0 se (by decide) hb]
  rfl

theorem bpre1 (f se : Nat) (hb : ¬ se + 1 > 4001) :
    runFrom boundedLoopScript qf0 0 (f + 1) ⟨docN, 1, se⟩
      = runFrom boundedLoopScript qf0 0 f ⟨docNI 0, 2, se + 1⟩ := by
  rw [runFrom_succ boundedLoopScript qf0 0 f docN 1 se (by decide) hb]
  rfl

/-- The raised-budget loop test: starting from `{n: 500}`, the script
counts `i` up to 500 and completes within its `maxSteps` of 4001. -/
theorem c2_bounded_run :
    run boundedLoopScript qf0 0 docN = Except.ok (docNI 500) := by
  show runFrom boundedLoopScript qf0 0 4002 ⟨docN, 0, 0⟩ = _
  have s0 : runFrom boundedLoopScript qf0 0 4002 ⟨docN, 0, 0⟩
      = runFrom boundedLoopScript qf0 0 4001 ⟨docN, 1, 1⟩ :=
    bpre0 4001 0 (by omega)
  have s1 : runFrom boundedLoopScript qf0 0 4001 ⟨docN, 1, 1⟩
      = runFrom boundedLoopScript qf0 0 4000 ⟨docNI 0, 2, 2⟩ :=
    bpre1 4000 1 (by omega)
  have s2 : runFrom boundedLoopScript qf0 0 4000 ⟨docNI 0, 2, 2⟩
      = runFrom boundedLoopScript qf0 0 3999 ⟨docNI 0, 3, 3⟩ :=
    bstep2_loop 3999 2 0 (by omega) (by omega)
  have s3 : runFrom boundedLoopScript qf0 0 3999 ⟨docNI 0, 3, 3⟩
      = runFrom boundedLoopScript qf0 0 3998 ⟨docNI 0, 0, 4⟩ :=
    bstep3 3998 3 0 (by omega)
  have s4 : runFrom boundedLoopScript qf0 0 3998 ⟨docNI 0, 0, 4⟩
      = runFrom boundedLoopScript qf0 0 3997 ⟨docNI 0, 1, 5⟩ :=
    bstep0 3997 4 0 (by omega)
  have s5 : runFrom boundedLoopScript qf0 0 3997 ⟨docNI ((0 : Nat) : Int), 1, 5⟩
      = Except.ok (docNI 500) :=
    boundedLoop_iter 3997 0 5 (by omega) (by omega) (by omega)
  exact s0.trans (s1.trans (s2.trans (s3.trans (s4.trans s5))))

/-- The default-budget loop test: the unconditional loop is rejected with
the bounded-loop error. -/
theorem c2_loop_run :
    run loopScript qf0 0 (Value.obj [("n", Value.num 10000)])
      = Except.error ScriptError.maxStepsExceeded := by
  show runFrom loopScript qf0 0 1001 ⟨Value.obj [("n", Value.num 10000)], 0, 0⟩ = _
  exact loopScript_exceeds 1001 _ 0 0 (by decide) (by omega)

/-! ### Frame properties of the heap-level evaluator -/

/-- A lookup that succeeds still succeeds in any heap extending this one. -/
theorem lookup_mono (h h2 : Heap) (hp : h.data.IsPrefix h2.data) (a : Nat)
    (n : HNode) (hl : h.lookup a = some n) : h2.lookup a = some n := by
  obtain ⟨t, ht⟩ := hp
  obtain ⟨d2⟩ := h2
  simp only at ht
  subst ht
  obtain ⟨hlt, -⟩ := List.get?_eq_some.mp hl
  show (h.data ++ t).get? a = some n
  rw [List.get?_append hlt]
  exact hl

/-- Extending a heap leaves every pre-existing address's node unchanged. -/
theorem lookup_frame (h h2 : Heap) (hp : h.data.IsPrefix h2.data) (a : Nat)
    (hlt : a < h.size) : h2.lookup a = h.lookup a := by
  obtain ⟨t, ht⟩ := hp
  obtain ⟨d2⟩ := h2
  simp only at ht
  subst ht
  show (h.data ++ t).get? a = h.data.get? a
  exact List.get?_append hlt

theorem extract_mono : ∀ (fuel : Nat) (h h2 : Heap),
    h.data.IsPrefix h2.data →
    (∀ a v, extract fuel h a = some v → extract fuel h2 a = some v)
    ∧ (∀ as vs, extractL fuel h as = some vs → extractL fuel h2 as = some vs)
    ∧ (∀ fs ps, extractF fuel h fs = some ps → extractF fuel h2 fs = some ps) := by
  intro fuel
  induction fuel with
  | zero =>
      intro h h2 hp
      refine ⟨?_, ?_, ?_⟩
      · intro a v hx
        exact Option.noConfusion hx
      · intro as vs hx
        cases as with
        | nil => exact hx
        | cons a rest => exact Option.noConfusion hx
      · intro fs ps hx
        cases fs with
        | nil => exact hx
        | cons p rest =>
            obtain ⟨k, a⟩ := p
            exact Option.noConfusion hx
  | succ f ih =>
      intro h h2 hp
      refine ⟨?_, ?_, ?_⟩
      · intro a v hx
        rw [extract] at hx ⊢
        cases hl : h.lookup a with
        | none => rw [hl] at hx; exact Option.noConfusion hx
        | some n =>
            rw [hl] at hx
            rw [lookup_mono h h2 hp a n hl]
            cases n with
            | nullN => exact hx
            | undefN => exact hx
            | boolN b => exact hx
            | numN m => exact hx
            | strN s => exact hx
            | arrN es =>
                have hx2 : (match extractL f h es with
                  | none => none
                  | some ws => some (Value.arr ws)) = some v := hx
                show (match extractL f h2 es with
                  | none => none
                  | some ws => some (Value.arr ws)) = some v
                cases hL : extractL f h es with
                | none => rw [hL] at hx2; exact Option.noConfusion hx2
                | some ws =>
                    rw [hL] at hx2
                    rw [(ih h h2 hp).2.1 es ws hL]
                    exact hx2
            | objN gs =>
                have hx2 : (match extractF f h gs with
                  | none => none
                  | some qs => some (Value.obj qs)) = some v := hx
                show (match extractF f h2 gs with
                  | none => none
                  | some qs => some (Value.obj qs)) = some v
                cases hF : extractF f h gs with
                | none => rw [hF] at hx2; exact Option.noConfusion hx2
                | some qs =>
                    rw [hF] at hx2
                    rw [(ih h h2 hp).2.2 gs qs hF]
                    exact hx2
      · intro as vs hx
        cases as with
        | nil => exact hx
        | cons a rest =>
            have hx2 : (match extract f h a with
              | none => none
              | some w =>
                  match extractL f h rest with
                  | none => none
                  | some ws => some (w :: ws)) = some vs := hx
            show (match extract f h2 a with
              | none => none
              | some w =>
                  match extractL f h2 rest with
                  | none => none
                  | some ws => some (w :: ws)) = some vs
            cases hv : extract f h a with
            | none => rw [hv] at hx2; exact Option.noConfusion hx2
            | some w =>
                rw [hv] at hx2
                rw [(ih h h2 hp).1 a w hv]
                have hx3 : (match extractL f h rest with
                  | none => none
                  | some ws => some (w :: ws)) = some vs := hx2
                show (match extractL f h2 rest with
                  | none => none
                  | some ws => some (w :: ws)) = some vs
                cases hr : extractL f h rest with
                | none => rw [hr] at hx3; exact Option.noConfusion hx3
                | some ws =>
                    rw [hr] at hx3
                    rw [(ih h h2 hp).2.1 rest ws hr]
                    exact hx3
      · intro fs ps hx
        cases fs with
        | nil => exact hx
        | cons p rest =>
            obtain ⟨k, a⟩ := p
            have hx2 : (match extract f h a with
              | none => none
              | some w =>
                  match extractF f h rest with
                  | none => none
                  | some qs => some ((k, w) :: qs)) = some ps := hx
            show (match extract f h2 a with
              | none => none
              | some w =>
                  match extractF f h2 rest with
                  | none => none
                  | some qs => some ((k, w) :: qs)) = some ps
            cases hv : extract f h a with
            | none => rw [hv] at hx2; exact Option.noConfusion hx2
            | some w =>
                rw [hv] at hx2
                rw [(ih h h2 hp).1 a w hv]
                have hx3 : (match extractF f h rest with
                  | none => none
                  | some qs => some ((k, w) :: qs)) = some ps := hx2
                show (match extractF f h2 rest with
                  | none => none
                  | some qs => some ((k, w) :: qs)) = some ps
                cases hr : extractF f h rest with
                | none => rw [hr] at hx3; exact Option.noConfusion hx3
                | some qs =>
                    rw [hr] at hx3
                    rw [(ih h h2 hp).2.2 rest qs hr]
                    exact hx3


/-- The heap-level transform only ever extends the heap: the input heap is
a prefix of the heap it returns, on every path (decode failure, operation
error, success). -/
theorem transformH_extends (tfuel : Nat) (t : Template) (h : Heap) (a : Nat) :
    h.data.IsPrefix (transformH tfuel t h a).1.data := by
  rw [transformH]
  cases hx : extract (2 * h.size + 2) h a with
  | none => exact List.prefix_refl _
  | some v =>
      simp only []
      cases ht : transform tfuel t v with
      | error e => exact allocValue_extends h v
      | ok out =>
          simp only []
          have hp1 := allocValue_extends h v
          have hp2 := allocValue_extends (allocValue h v).1 out
          rcases ho : allocValue (allocValue h v).1 out with ⟨h2, aOut⟩
          rw [ho] at hp2
          exact hp1.trans hp2

/-! ### Claim theorems for the Script engine -/

/-- C1 counterexample: the claim places `<=` among the operators that
evaluate to false on `left = 1`, `right = 2`, but `1 <= 2` is true — the
jump is taken and `foo` stays null instead of becoming `'bar'` (matching
the in-repo test table, which expects `'<=': true`). -/
theorem c1_counterexample :
    compareJs ("<=") (Value.num 1) (Value.num 2) = true
    ∧ run (c1Script ("<=")) qf0 20 (Value.obj [])
        = Except.ok (Value.obj [("foo", Value.vnull), ("bar", Value.str ("baz"))]) :=
  ⟨rfl, rfl⟩

/-- C1 (amended): for a jump with operands `left = 1`, `right = 2`,
exactly the operators `!=`, `!==`, `<` and `<=` evaluate to true (jump
taken, `foo` stays null) while `===`, `==`, `>`, `>=`, `in` and any
unrecognized operator evaluate to false (jump skipped, `foo` becomes
`'bar'`) — both at the comparison level and through a full engine run of
the test script. -/
theorem c1_jump_truth_table :
    (∀ p ∈ c1TruthTable, compareJs p.1 (Value.num 1) (Value.num 2) = p.2)
    ∧ (∀ oper : String, oper ∉ knownJumpOperators →
        compareJs oper (Value.num 1) (Value.num 2) = false)
    ∧ (∀ p ∈ c1TruthTable,
        run (c1Script p.1) qf0 20 (Value.obj [])
          = Except.ok (c1Expected p.2)) := by
  refine ⟨?_, ?_, ?_⟩
  · intro p hp
    fin_cases hp <;> rfl
  · intro oper h
    have h1 : oper ≠ ("===") := fun e => h (by rw [e]; decide)
    have h2 : oper ≠ ("==") := fun e => h (by rw [e]; decide)
    have h3 : oper ≠ ("!=") := fun e => h (by rw [e]; decide)
    have h4 : oper ≠ ("!==") := fun e => h (by rw [e]; decide)
    have h5 : oper ≠ ("<") := fun e => h (by rw [e]; decide)
    have h6 : oper ≠ (">") := fun e => h (by rw [e]; decide)
    have h7 : oper ≠ ("<=") := fun e => h (by rw [e]; decide)
    have h8 : oper ≠ (">=") := fun e => h (by rw [e]; decide)
    have h9 : oper ≠ ("in") := fun e => h (by rw [e]; decide)
    simp only [compareJs, if_neg h1, if_neg h2, if_neg h3, if_neg h4,
      if_neg h5, if_neg h6, if_neg h7, if_neg h8, if_neg h9]
  · intro p hp
    fin_cases hp <;> rfl

/-- C1 witness: the amended truth table applied at `<=` (true, jump taken)
and at a concrete unrecognized operator. -/
theorem c1_jump_truth_table_witness :
    compareJs ("<=") (Value.num 1) (Value.num 2) = true
    ∧ compareJs ("^^") (Value.num 1) (Value.num 2) = false
    ∧ run (c1Script ("<=")) qf0 20 (Value.obj [])
        = Except.ok (c1Expected true) :=
  ⟨c1_jump_truth_table.1 ("<=", true) (by decide),
   c1_jump_truth_table.2.1 ("^^") (by decide),
   c1_jump_truth_table.2.2 ("<=", true) (by decide)⟩

/-- C2: `run()` always settles without the embedding's fuel artifact (the
budget check fires first on every path); a script that loops
unconditionally is rejected with the bounded-loop error once
`stepsExecuted` exceeds the default `maxSteps` of 1000; and the counting
loop of the raised-budget test (maxSteps 4001, `n = 500`) completes
normally with the expected counters. -/
theorem c2_step_budget :
    (∀ (s : Script) (qf : String → Value) (tf : Nat) (input : Value),
        isOutOfFuel (run s qf tf input) = false)
    ∧ run loopScript qf0 0 (Value.obj [("n", Value.num 10000)])
        = Except.error ScriptError.maxStepsExceeded
    ∧ run boundedLoopScript qf0 0 docN
        = Except.ok (Value.obj [("n", Value.num 500), ("i", Value.num 500)]) := by
  refine ⟨?_, c2_loop_run, c2_bounded_run⟩
  intro s qf tf input
  exact runFrom_never_outOfFuel (s.maxSteps + 1) s qf tf ⟨input, 0, 0⟩
    (by omega : s.maxSteps < s.maxSteps + 1 + 0)

/-- C3: a `run()` on a busy Program fails immediately with the busy error
and leaves the Program untouched; on a non-busy Program it executes the
script and clears `busy` on every exit path, so a subsequent `run()` on
the resulting Program executes normally. -/
theorem c3_busy_reentrancy :
    (∀ (p : Program) (qf : String → Value) (tf : Nat) (input : Value),
        p.busy = true →
        runGuarded p qf tf input = (p, Except.error ScriptError.busyError))
    ∧ (∀ (p : Program) (qf : String → Value) (tf : Nat) (input : Value),
        p.busy = false →
        runGuarded p qf tf input = (⟨p.script, false⟩, run p.script qf tf input))
    ∧ (∀ (p : Program) (qf qf2 : String → Value) (tf tf2 : Nat)
        (input input2 : Value),
        p.busy = false →
        (runGuarded ((runGuarded p qf tf input).1) qf2 tf2 input2).2
          = run p.script qf2 tf2 input2) := by
  refine ⟨?_, ?_, ?_⟩
  · intro p qf tf input h
    obtain ⟨s, b⟩ := p
    cases b with
    | true => rfl
    | false => exact absurd h (by simp)
  · intro p qf tf input h
    obtain ⟨s, b⟩ := p
    cases b with
    | true => exact absurd h (by simp)
    | false => rfl
  · intro p qf qf2 tf tf2 input input2 h
    obtain ⟨s, b⟩ := p
    cases b with
    | true => exact absurd h (by simp)
    | false => rfl

/-- C3 witness: the guard applied to a concrete busy Program, a concrete
idle Program, and the back-to-back pair of runs. -/
theorem c3_busy_reentrancy_witness :
    runGuarded ⟨c3Script, true⟩ qf0 0 (Value.obj [])
      = (⟨c3Script, true⟩, Except.error ScriptError.busyError)
    ∧ runGuarded ⟨c3Script, false⟩ qf0 0 (Value.obj [])
      = (⟨c3Script, false⟩, run c3Script qf0 0 (Value.obj []))
    ∧ (runGuarded ((runGuarded ⟨c3Script, false⟩ qf0 0 (Value.obj [])).1) qf0 0
        (Value.obj [])).2 = run c3Script qf0 0 (Value.obj []) :=
  ⟨c3_busy_reentrancy.1 ⟨c3Script, true⟩ qf0 0 (Value.obj []) rfl,
   c3_busy_reentrancy.2.1 ⟨c3Script, false⟩ qf0 0 (Value.obj []) rfl,
   c3_busy_reentrancy.2.2 ⟨c3Script, false⟩ qf0 qf0 0 0 (Value.obj [])
     (Value.obj []) rfl⟩

/-- C8: a query step's result placement — with no `resultProperty` the
result lands under the document's `result` key and every other key is
unchanged; with `resultProperty: ''` the raw result replaces the whole
document; with another path the result lands at that path and the rest of
the document is unchanged; and three one-step engine runs exhibit each
placement. -/
theorem c8_query_result_placement :
    (∀ (fs : List (String × Value)) (r : Value),
        applyQueryResult (Value.obj fs) r none
          = Value.obj (updateAssoc fs ("result") r)
        ∧ (updateAssoc fs ("result") r).lookup ("result") = some r
        ∧ ∀ k, k ≠ ("result") →
            (updateAssoc fs ("result") r).lookup k = fs.lookup k)
    ∧ (∀ (doc r : Value), applyQueryResult doc r (some ("")) = r)
    ∧ (∀ (p t : String) (fs : List (String × Value)) (r : Value),
        parsePointer p = some [t] →
        applyQueryResult (Value.obj fs) r (some p)
          = Value.obj (updateAssoc fs t r)
        ∧ (updateAssoc fs t r).lookup t = some r
        ∧ ∀ k, k ≠ t → (updateAssoc fs t r).lookup k = fs.lookup k)
    ∧ run ⟨"Q", [Step.op (some ⟨"listItem", none⟩) none none none], 10⟩ qf1 0
        (Value.obj [("keep", Value.num 1)])
      = Except.ok (Value.obj [("keep", Value.num 1), ("result", Value.str ("res"))])
    ∧ run ⟨"Q", [Step.op (some ⟨"listItem", some ("")⟩) none none none], 10⟩ qf1 0
        (Value.obj [("keep", Value.num 1)])
      = Except.ok (Value.str ("res"))
    ∧ run ⟨"Q", [Step.op (some ⟨"listItem", some ("/output")⟩) none none none], 10⟩
        qf1 0 (Value.obj [("keep", Value.num 1)])
      = Except.ok (Value.obj [("keep", Value.num 1), ("output", Value.str ("res"))]) := by
  refine ⟨?_, ?_, ?_, rfl, rfl, rfl⟩
  · intro fs r
    exact ⟨rfl, lookup_updateAssoc_self fs ("result") r,
           fun k hk => lookup_updateAssoc_other fs k ("result") r hk⟩
  · intro doc r
    rfl
  · intro p t fs r hp
    refine ⟨?_, lookup_updateAssoc_self fs t r,
            fun k hk => lookup_updateAssoc_other fs k t r hk⟩
    show (match parsePointer p with
      | some toks => ptrSet (Value.obj fs) toks r
      | none => Value.obj fs) = Value.obj (updateAssoc fs t r)
    rw [hp]
    rfl

/-- C8 witness: the path clause applied at the pointer `/output` over a
one-key document, including the frame fact for the untouched key. -/
theorem c8_query_result_placement_witness :
    applyQueryResult (Value.obj [("keep", Value.num 1)]) (Value.str ("res"))
        (some ("/output"))
      = Value.obj (updateAssoc [("keep", Value.num 1)] ("output") (Value.str ("res")))
    ∧ (updateAssoc [("keep", Value.num 1)] ("output") (Value.str ("res"))).lookup
        ("output") = some (Value.str ("res"))
    ∧ (updateAssoc [("keep", Value.num 1)] ("output") (Value.str ("res"))).lookup
        ("keep") = List.lookup ("keep") [("keep", Value.num 1)] :=
  ⟨(c8_query_result_placement.2.2.1 ("/output") ("output") [("keep", Value.num 1)]
      (Value.str ("res")) rfl).1,
   (c8_query_result_placement.2.2.1 ("/output") ("output") [("keep", Value.num 1)]
      (Value.str ("res")) rfl).2.1,
   (c8_query_result_placement.2.2.1 ("/output") ("output") [("keep", Value.num 1)]
      (Value.str ("res")) rfl).2.2 ("keep") (by decide)⟩

/-- C10: the heap-level transform never mutates its input — every address
already allocated keeps its node unchanged, and in particular the caller's
value still extracts identically from the resulting heap. -/
theorem c10_transform_never_mutates :
    ∀ (tfuel : Nat) (t : Template) (h : Heap) (a : Nat),
      (∀ addr, addr < h.size →
        (transformH tfuel t h a).1.lookup addr = h.lookup addr)
      ∧ (∀ fuel v, extract fuel h a = some v →
          extract fuel (transformH tfuel t h a).1 a = some v) := by
  intro tfuel t h a
  have hp := transformH_extends tfuel t h a
  exact ⟨fun addr hlt => lookup_frame h _ hp addr hlt,
         fun fuel v hx => (extract_mono fuel h _ hp).1 a v hx⟩

/-- C10 witness: the frame property applied to a concrete heap, template
and root address, with the input value re-extracted unchanged after the
transform. -/
theorem c10_transform_never_mutates_witness :
    (transformH 5 (Template.mk [OpEntry.static (Value.num 7)]) heap0 1).1.lookup 0
      = heap0.lookup 0
    ∧ extract 3 (transformH 5 (Template.mk [OpEntry.static (Value.num 7)]) heap0 1).1 1
      = some (Value.obj [("x", Value.num 5)]) :=
  ⟨(c10_transform_never_mutates 5 (Template.mk [OpEntry.static (Value.num 7)])
      heap0 1).1 0 (by decide),
   (c10_transform_never_mutates 5 (Template.mk [OpEntry.static (Value.num 7)])
      heap0 1).2 3 (Value.obj [("x", Value.num 5)]) (by rfl)⟩

end Restapir
